import Mathlib

set_option maxHeartbeats 1600000
set_option maxRecDepth 4000

/-!
Verification development for the ECG glove analyzer's numeric core:
the packet decoder (`glove_decoder.py`), the filter stages
(`ecg_filters.py`) and the per-sample filter pipeline
(`ecg_glove.py::EcgGlove._filter_signal`).

Modelling conventions:
* Python `bytes` values are `List Nat`; every byte of a real input is in
  `[0, 256)`, and the definitions below agree with the Python expressions
  on that range (where an expression such as `(msb << 8) | (lsb & 0xFF)`
  is rewritten arithmetically, the rewriting is valid for all naturals,
  since the two operands occupy disjoint bit ranges:
  `(msb <<< 8) ||| (lsb &&& 255) = msb * 256 + lsb % 256`).
* `float` arithmetic is modelled exactly over `ℚ`; all quantities the
  claims mention (int16 samples, their sums, differences and halves) are
  representable exactly in binary64, so the idealisation is faithful
  there.  Python `int(...)` truncation toward zero is `pyInt` below.
* A Python method mutating `self` becomes a function from the state to a
  pair of the new state and the returned value.
-/

namespace ECG

/-! ## Decoder embedding (`src/glove_decoder.py`) -/

/-- The eight per-channel accumulator lists (`self.channels`). -/
abbrev Channels := Fin 8 → List Int

def SYNC_BYTE : Nat := 0x80

def HEADER_SIZE : Nat := 7

def ECG_PACKET_TYPE : Nat := 0x51

def FAULT_PACKET_TYPE : Nat := 0x03

def ECG_PAYLOAD_SIZE : Nat := 81

def FAULT_PAYLOAD_SIZE : Nat := 10

def emptyChannels : Channels := fun _ => []

/-- `GlovePacket` dataclass. -/
structure GlovePacket where
  packet_type : Nat
  payload : List Nat
  checksum_valid : Bool
deriving DecidableEq, Repr

/-- `_verify_checksum`: sum of all bytes is 0 mod 256. -/
def verify_checksum (l : List Nat) : Bool := l.sum % 256 == 0

/-- `_decode_header`: accept a 7-byte header `0x80 0x17 0x00 _ _ type chk`
whose byte sum is 0 mod 256, returning the packet type (`header[5]`). -/
def decode_header (header : List Nat) : Option Nat :=
  if header.length = HEADER_SIZE ∧ header.getD 0 0 = SYNC_BYTE ∧
      header.getD 1 0 = 0x17 ∧ header.getD 2 0 = 0x00 ∧
      verify_checksum header = true then
    some (header.getD 5 0)
  else none

/-- Two's-complement reinterpretation of an unsigned 16-bit value
(`if value > 32767: value -= 65536`). -/
def toInt16 (value : Nat) : Int :=
  if value > 32767 then (value : Int) - 65536 else (value : Int)

/-- The 16-bit little-endian value at channel `ch` of a 16-byte frame:
`(msb << 8) | (lsb & 0xFF)` with `lsb = frame[2*ch]`, `msb = frame[2*ch+1]`. -/
def frameValue (frame : List Nat) (ch : Fin 8) : Nat :=
  frame.getD (2 * ch.val + 1) 0 * 256 + frame.getD (2 * ch.val) 0 % 256

/-- `_decode_ecg_frame`: append one decoded sample per channel. -/
def decode_ecg_frame (frame : List Nat) (channels : Channels) : Channels :=
  fun ch => channels ch ++ [toInt16 (frameValue frame ch)]

/-- Fuel-based evaluator for the frame loop of `_decode_ecg_packet`
(structural recursion, so concrete inputs compute inside the kernel;
the fuel never runs out when it starts at `data.length - fs`). -/
def decode_frames_go : Nat → List Nat → Nat → Channels → Channels
  | 0, _, _, channels => channels
  | fuel + 1, data, fs, channels =>
    if fs < data.length then
      let frame := (data.drop fs).take 16
      decode_frames_go fuel data (fs + 16)
        (if frame.length = 16 then decode_ecg_frame frame channels else channels)
    else channels

/-- The `for frame_start in range(0, len(data), 16)` loop of
`_decode_ecg_packet`: frames shorter than 16 bytes are skipped. -/
def decode_frames (data : List Nat) (fs : Nat) (channels : Channels) : Channels :=
  decode_frames_go (data.length - fs) data fs channels

/-- `_decode_ecg_packet`: verify the payload checksum, then decode the
80 data bytes (payload without its trailing checksum byte). -/
def decode_ecg_packet (payload : List Nat) (channels : Channels) :
    Bool × Channels :=
  if verify_checksum payload = true then
    (true, decode_frames payload.dropLast 0 channels)
  else (false, channels)

/-- `_find_next_packet`: scan from index `i` for a sync byte followed by a
valid header; stop (returning no packet) on truncation, otherwise return
the end position of the packet together with the packet itself. -/
def find_next_packet_go : Nat → List Nat → Nat → Nat × Option GlovePacket
  | 0, _, i => (i, none)
  | fuel + 1, data, i =>
    if i < data.length then
      if data.getD i 0 ≠ SYNC_BYTE then
        find_next_packet_go fuel data (i + 1)
      else if data.length < i + HEADER_SIZE then
        (i, none)
      else
        match decode_header ((data.drop i).take HEADER_SIZE) with
        | none => find_next_packet_go fuel data (i + 1)
        | some packet_type =>
          let payload_size :=
            if packet_type = ECG_PACKET_TYPE then ECG_PAYLOAD_SIZE
            else if packet_type = FAULT_PACKET_TYPE then FAULT_PAYLOAD_SIZE
            else 0
          let packet_end := i + HEADER_SIZE + payload_size
          if data.length < packet_end then (i, none)
          else
            let payload := (data.drop (i + HEADER_SIZE)).take payload_size
            (packet_end, some ⟨packet_type, payload, verify_checksum payload⟩)
    else (i, none)

def find_next_packet (data : List Nat) (i : Nat) : Nat × Option GlovePacket :=
  find_next_packet_go (data.length - i) data i

/-- Fuel-based evaluator for the `while pos < len(data)` loop of `decode`. -/
def decode_loop_go : Nat → List Nat → Nat → Channels → Channels
  | 0, _, _, channels => channels
  | fuel + 1, data, pos, channels =>
    if pos < data.length then
      match find_next_packet data pos with
      | (_, none) => channels
      | (next_pos, some pkt) =>
        decode_loop_go fuel data next_pos
          (if pkt.packet_type = ECG_PACKET_TYPE ∧ pkt.checksum_valid = true then
            (decode_ecg_packet pkt.payload channels).2
          else channels)
    else channels

/-- The `while pos < len(data)` loop of `decode`: feed each found packet
to `_decode_ecg_packet` when it is an ECG packet with a valid checksum. -/
def decode_loop (data : List Nat) (pos : Nat) (channels : Channels) : Channels :=
  decode_loop_go (data.length - pos) data pos channels

/-- Fuel-based evaluator collecting the ECG payloads the loop accepts. -/
def acceptedPayloads_go : Nat → List Nat → Nat → List (List Nat)
  | 0, _, _ => []
  | fuel + 1, data, pos =>
    if pos < data.length then
      match find_next_packet data pos with
      | (_, none) => []
      | (next_pos, some pkt) =>
        (if pkt.packet_type = ECG_PACKET_TYPE ∧ pkt.checksum_valid = true then
          [pkt.payload]
        else []) ++ acceptedPayloads_go fuel data next_pos
    else []

/-- The ECG payloads the decode loop accepts (subtype `0x51`, checksum
valid), in the order the loop processes them.  Mirrors `decode_loop`. -/
def acceptedPayloads (data : List Nat) (pos : Nat) : List (List Nat) :=
  acceptedPayloads_go (data.length - pos) data pos

/-- The raw per-channel state after a full `decode` scan of `data`
(the channel buffers are reset at the start of each `decode` call). -/
def run_decode (data : List Nat) : Channels := decode_loop data 0 emptyChannels

/-- The mapping `decode` returns: eight acquired leads plus the four
derived leads, which are present in the mapping only when both truncated
limb leads are non-empty.  Samples are exact rationals standing for the
`numpy.float64` values (all arithmetic here is exact in binary64). -/
structure LeadMap where
  leadI : List ℚ
  leadII : List ℚ
  v1 : List ℚ
  v2 : List ℚ
  v3 : List ℚ
  v4 : List ℚ
  v5 : List ℚ
  v6 : List ℚ
  leadIII : Option (List ℚ)
  aVR : Option (List ℚ)
  aVL : Option (List ℚ)
  aVF : Option (List ℚ)
deriving DecidableEq, Repr

/-- The channels as `numpy.float64` arrays (exact rationals here). -/
def channelsQ (channels : Channels) : Fin 8 → List ℚ :=
  fun ch => (channels ch).map (fun v : Int => (v : ℚ))

/-- `min(len(arr) for arr in leads.values())` over the eight leads. -/
def minLeadLength (leads : Fin 8 → List ℚ) : Nat :=
  min (leads 0).length (min (leads 1).length (min (leads 2).length
    (min (leads 3).length (min (leads 4).length (min (leads 5).length
      (min (leads 6).length (leads 7).length))))))

/-- The eight lead arrays truncated to the minimum common length. -/
def truncatedLeads (channels : Channels) : Fin 8 → List ℚ :=
  fun ch => (channelsQ channels ch).take (minLeadLength (channelsQ channels))

/-- Lines 160–182 of `glove_decoder.py`: name the channels, truncate all
eight to the minimum common length, and add the derived leads when both
limb leads are non-empty. -/
def buildLeads (channels : Channels) : LeadMap :=
  let t : Fin 8 → List ℚ := truncatedLeads channels
  if 0 < (t 0).length ∧ 0 < (t 1).length then
    { leadI := t 0, leadII := t 1, v1 := t 2, v2 := t 3, v3 := t 4,
      v4 := t 5, v5 := t 6, v6 := t 7
      leadIII := some (List.zipWith (fun a b => a - b) (t 1) (t 0))
      aVR := some (List.zipWith (fun a b => -(a + b) / 2) (t 0) (t 1))
      aVL := some (List.zipWith (fun a b => a - b / 2) (t 0) (t 1))
      aVF := some (List.zipWith (fun a b => a - b / 2) (t 1) (t 0)) }
  else
    { leadI := t 0, leadII := t 1, v1 := t 2, v2 := t 3, v3 := t 4,
      v4 := t 5, v5 := t 6, v6 := t 7
      leadIII := none, aVR := none, aVL := none, aVF := none }

/-- `ECGPacketDecoder.decode`: scan everything, raise (`none`) when every
channel accumulator is still empty, otherwise return the lead mapping. -/
def decode (data : List Nat) : Option LeadMap :=
  if ∀ ch : Fin 8, run_decode data ch = [] then none
  else some (buildLeads (run_decode data))

/-- The decoder method including its instance state: `decode` first
resets `self.channels`, so the incoming state is discarded.  Returns the
final accumulator state together with the result. -/
def decode_method (_state : Channels) (data : List Nat) :
    Channels × Option LeadMap :=
  (run_decode data, decode data)

/-! ## Structural characterisation of the decode loop -/

/-- Fuel-based evaluator for the structural chunk view of the frame loop. -/
def framesList_go : Nat → List Nat → Channels → Channels
  | 0, _, channels => channels
  | fuel + 1, data, channels =>
    if 16 ≤ data.length then
      framesList_go fuel (data.drop 16) (decode_ecg_frame (data.take 16) channels)
    else channels

/-- Structural view of the frame loop: process successive complete
16-byte chunks of the remaining data. -/
def framesList (data : List Nat) (channels : Channels) : Channels :=
  framesList_go data.length data channels

/-- The samples a payload contributes to channel `ch` when accepted. -/
def packetSamples (payload : List Nat) (ch : Fin 8) : List Int :=
  decode_frames payload.dropLast 0 emptyChannels ch

/-- Concatenation of the samples of a list of payloads on one channel. -/
def concatMapSamples (ch : Fin 8) : List (List Nat) → List Int
  | [] => []
  | p :: ps => packetSamples p ch ++ concatMapSamples ch ps

/-! ## Well-formed packet encoding (the layout of §4.1 of the spec,
used for the round-trip and resynchronization claims) -/

/-- Two's-complement encoding of a signed sample as an unsigned 16-bit word. -/
def encodeU (v : Int) : Nat := (if v < 0 then v + 65536 else v).toNat

/-- One well-formed packet's worth of samples: 5 frames × 8 channels. -/
abbrev PacketSamples := Fin 5 → Fin 8 → Int

/-- Low byte of a sample's unsigned encoding. -/
def loByte (v : Int) : Nat := encodeU v % 256

/-- High byte of a sample's unsigned encoding. -/
def hiByte (v : Int) : Nat := encodeU v / 256

/-- A 16-byte frame: 8 channels × 2 bytes, little-endian. -/
def frameBytes (p : PacketSamples) (f : Fin 5) : List Nat :=
  [loByte (p f 0), hiByte (p f 0), loByte (p f 1), hiByte (p f 1),
   loByte (p f 2), hiByte (p f 2), loByte (p f 3), hiByte (p f 3),
   loByte (p f 4), hiByte (p f 4), loByte (p f 5), hiByte (p f 5),
   loByte (p f 6), hiByte (p f 6), loByte (p f 7), hiByte (p f 7)]

/-- The 80 data bytes of an ECG payload: 5 frames of 16 bytes. -/
def payloadData (p : PacketSamples) : List Nat :=
  frameBytes p 0 ++ frameBytes p 1 ++ frameBytes p 2 ++
    frameBytes p 3 ++ frameBytes p 4

/-- The byte that makes the sum of `l` plus itself 0 mod 256. -/
def checksumByte (l : List Nat) : Nat := (256 - l.sum % 256) % 256

/-- A well-formed ECG header: `0x80 0x17 0x00 0x00 0x00 0x51 0x18`
(byte sum `0x100 ≡ 0 (mod 256)`). -/
def headerBytes : List Nat := [0x80, 0x17, 0x00, 0x00, 0x00, 0x51, 0x18]

/-- A full well-formed 88-byte ECG packet for the given samples. -/
def encodePacket (p : PacketSamples) : List Nat :=
  headerBytes ++ payloadData p ++ [checksumByte (payloadData p)]

/-- Concatenation of well-formed packets. -/
def encodePackets : List PacketSamples → List Nat
  | [] => []
  | p :: ps => encodePacket p ++ encodePackets ps

/-- The samples one packet contributes to channel `ch`, in frame order. -/
def packetChannelSamples (p : PacketSamples) (ch : Fin 8) : List Int :=
  [p 0 ch, p 1 ch, p 2 ch, p 3 ch, p 4 ch]

/-- The per-channel samples of a packet sequence, in order. -/
def samplesOf : List PacketSamples → Fin 8 → List Int
  | [], _ => []
  | p :: ps, ch => packetChannelSamples p ch ++ samplesOf ps ch

/-- All sample values of a packet list lie in the signed 16-bit range. -/
@[reducible] def InRange (ps : List PacketSamples) : Prop :=
  ∀ p ∈ ps, ∀ f ch, -32768 ≤ p f ch ∧ p f ch ≤ 32767

/-- Concrete all-zero packet used in witnesses and counterexamples. -/
def zeroPacket : PacketSamples := fun _ _ => 0

/-- Concrete all-one packet. -/
def onesPacket : PacketSamples := fun _ _ => 1

/-- Concrete all-two packet. -/
def twosPacket : PacketSamples := fun _ _ => 2

/-- A packet with distinct in-range values per frame and channel,
including a negative one. -/
def mixedPacket : PacketSamples := fun f ch => (f.val * 8 + ch.val : Int) - 3

/-! ## Filter embedding (`src/ecg_filters.py`) -/

/-- `Buffer`: fixed-capacity FIFO (`collections.deque(maxlen=buffersize)`)
with a sticky `filled` flag. -/
structure BufferState where
  buffersize : Nat
  buffer : List Int
  filled : Bool
deriving DecidableEq, Repr

def bufferInit (n : Nat) : BufferState := ⟨n, [], false⟩

/-- `Buffer.add`: the deque keeps the last `buffersize` appended values;
the flag is set once the buffer reaches capacity. -/
def BufferState.add (st : BufferState) (x : Int) : BufferState :=
  let b0 := st.buffer ++ [x]
  let b := if st.buffersize < b0.length then b0.drop (b0.length - st.buffersize)
    else b0
  { st with buffer := b, filled := if b.length = st.buffersize then true else st.filled }

/-- `Buffer.fill`. -/
def BufferState.fill (st : BufferState) : Bool :=
  st.filled || st.buffer.length == st.buffersize

/-- `int(0.7 * a + 0.3 * b)` for integers `a`, `b` under exact arithmetic:
truncation toward zero of `(7a + 3b) / 10` (Python `int()` truncates
toward zero). -/
def pyIntBlend (a b : Int) : Int :=
  let z := 7 * a + 3 * b
  if 0 ≤ z then ((z.toNat / 10 : Nat) : Int) else -(((-z).toNat / 10 : Nat) : Int)

/-- `MorphologyFilter` state: the 8-sample buffer and `previous_output`. -/
structure MorphState where
  buffer : BufferState
  previous_output : Int
deriving DecidableEq, Repr

def morphInit : MorphState := ⟨bufferInit 8, 0⟩

/-- `MorphologyFilter.compute_hpf`: pass input through until the buffer
fills; then subtract the upper median of the buffered 8 values and blend
with 0.3 of the previous output, truncating toward zero (`sorted` is the
ascending stable sort, here `insertionSort`, extensionally the unique
ascending reordering for integer keys). -/
def compute_hpf (st : MorphState) (data : Int) : MorphState × Int :=
  let st1 : MorphState := { st with buffer := st.buffer.add data }
  if ! st1.buffer.fill then (st1, data)
  else
    let sorted_values := List.insertionSort (· ≤ ·) st1.buffer.buffer
    let median_idx := sorted_values.length / 2
    let median_value := sorted_values.getD median_idx 0
    let output := data - median_value
    let smoothed_output := pyIntBlend output st1.previous_output
    ({ st1 with previous_output := smoothed_output }, smoothed_output)

/-- Run a per-sample stateful filter over a list of samples, collecting
the outputs. -/
def statefulRun {σ α β : Type} (step : σ → α → σ × β) : σ → List α → List β
  | _, [] => []
  | s, x :: xs =>
    let r := step s x
    r.2 :: statefulRun step r.1 xs

/-- Coefficient table `_AR_NOTCH_50` (169 taps). -/
def AR_NOTCH_50 : List ℚ := [
  0.003191240254179, 0.0004023940264151, -0.0001885801538513, -0.0009946831852538,
  -0.001685560730961, -0.001925539236658, -0.001522098520199, -0.0005333680269218,
  0.0007194709980928, 0.001753659840532, 0.00211053956438, 0.001555161495633,
  0.0002054196275165, -0.001473234044321, -0.002821356225562, -0.00323826184536,
  -0.002437785956292, -0.0006020639639701, 0.001642440731701, 0.003433224139613,
  0.00399917612592, 0.0029834511109, 0.0006320284688226, -0.002244537303345, -0.004541846384,
  -0.005277350761264, -0.00399854327205, -0.001016226022768, 0.002646048467218,
  0.005591790415681, 0.006574141535607, 0.005011559714335, 0.001288145357135,
  -0.003306923789776, -0.007013360286963, -0.008263641499684, -0.006327439949779,
  -0.00168691496025, 0.004027508514384, 0.008619314005463, 0.01013386384461, 0.007694575089546,
  0.00194836645966, -0.005058222198752, -0.01059125763832, -0.01228684033168,
  -0.009149802199265, -0.002075927422513, 0.006360133784057, 0.01282697530772,
  0.01454636270676, 0.01047862169169, 0.001880829233369, -0.008043633154571, -0.01532864770893,
  -0.01682902712556, -0.01157460778684, -0.001309588720338, 0.01005658143724, 0.01793648057692,
  0.01891927953391, 0.01224722226935, 0.0002723463538699, -0.01235701830664, -0.02050441759353,
  -0.02064434756012, -0.01239113494028, 0.001207636123782, 0.01479084265898, 0.02280902055994,
  0.0218076650344, 0.01192150131267, -0.003068404398047, -0.01718331659017, -0.02464989957766,
  -0.02228358651129, -0.01085052334453, 0.005159304009261, 0.01931250078256, 0.02583690561678,
  0.02199847336905, 0.009256256293575, -0.007293906013231, -0.02097527018786, 0.9737515356737,
  -0.02097527018786, -0.007293906013231, 0.009256256293575, 0.02199847336905, 0.02583690561678,
  0.01931250078256, 0.005159304009261, -0.01085052334453, -0.02228358651129, -0.02464989957766,
  -0.01718331659017, -0.003068404398047, 0.01192150131267, 0.0218076650344, 0.02280902055994,
  0.01479084265898, 0.001207636123782, -0.01239113494028, -0.02064434756012, -0.02050441759353,
  -0.01235701830664, 0.0002723463538699, 0.01224722226935, 0.01891927953391, 0.01793648057692,
  0.01005658143724, -0.001309588720338, -0.01157460778684, -0.01682902712556,
  -0.01532864770893, -0.008043633154571, 0.001880829233369, 0.01047862169169, 0.01454636270676,
  0.01282697530772, 0.006360133784057, -0.002075927422513, -0.009149802199265,
  -0.01228684033168, -0.01059125763832, -0.005058222198752, 0.00194836645966,
  0.007694575089546, 0.01013386384461, 0.008619314005463, 0.004027508514384, -0.00168691496025,
  -0.006327439949779, -0.008263641499684, -0.007013360286963, -0.003306923789776,
  0.001288145357135, 0.005011559714335, 0.006574141535607, 0.005591790415681,
  0.002646048467218, -0.001016226022768, -0.00399854327205, -0.005277350761264,
  -0.004541846384, -0.002244537303345, 0.0006320284688226, 0.0029834511109, 0.00399917612592,
  0.003433224139613, 0.001642440731701, -0.0006020639639701, -0.002437785956292,
  -0.00323826184536, -0.002821356225562, -0.001473234044321, 0.0002054196275165,
  0.001555161495633, 0.00211053956438, 0.001753659840532, 0.0007194709980928,
  -0.0005333680269218, -0.001522098520199, -0.001925539236658, -0.001685560730961,
  -0.0009946831852538, -0.0001885801538513, 0.0004023940264151, 0.003191240254179]

/-- Coefficient table `_AR_NOTCH_60` (159 taps). -/
def AR_NOTCH_60 : List ℚ := [
  -0.003938724014889, 0.01498794223805, -0.001865117008976, -0.00481863345601,
  -0.003755969174496, -0.001422540633262, 0.00105619593972, 0.002764623266707,
  0.003002161360111, 0.001673669433141, -0.0005227149950744, -0.002404336779334,
  -0.00294945158108, -0.001877699968029, 0.000176607267872, 0.002042365178714,
  0.002724130491097, 0.001947288802137, 0.0002579197074577, -0.00137424966707,
  -0.002167955417139, -0.0018941995205, -0.0008965043651263, 0.0002789236947357,
  0.001209127755516, 0.001732619687145, 0.001803132181831, 0.001324207637989,
  0.0001842960506553, -0.001476763571776, -0.003026923786416, -0.003466049687554,
  -0.002013053775461, 0.001152039978604, 0.004587232335073, 0.006140822298526,
  0.004249085774038, -0.0007859392674331, -0.00648204619663, -0.009310052976893,
  -0.006838346152016, 0.0004058293862064, 0.008679756232888, 0.01289067561247,
  0.009691380444807, -4.475403619511e-5, -0.0111288961872, -0.01676734664891,
  -0.01270105351999, -0.0002699991783147, 0.01374824256746, 0.020790367708, 0.01574051838221,
  0.0005122066648212, -0.01643691913222, -0.02479361281234, -0.01867258024593,
  -0.0006655454164888, 0.01907992865478, 0.02859243778939, 0.02135871608215,
  0.0007223609402317, -0.02154898366857, -0.03200446841931, -0.0236756570993,
  -0.0006871430328865, 0.02372299821387, 0.03486484988663, 0.0255145163661, 0.0005538391863152,
  -0.02548189953121, -0.03702940387603, -0.02676012645098, -0.0003603634726058,
  0.02672190470438, 0.0383647570084, 0.02740252623502, 0.0001218184935861, -0.02738308211151,
  0.9611882288515, -0.02738308211151, 0.0001218184935861, 0.02740252623502, 0.0383647570084,
  0.02672190470438, -0.0003603634726058, -0.02676012645098, -0.03702940387603,
  -0.02548189953121, 0.0005538391863152, 0.0255145163661, 0.03486484988663, 0.02372299821387,
  -0.0006871430328865, -0.0236756570993, -0.03200446841931, -0.02154898366857,
  0.0007223609402317, 0.02135871608215, 0.02859243778939, 0.01907992865478,
  -0.0006655454164888, -0.01867258024593, -0.02479361281234, -0.01643691913222,
  0.0005122066648212, 0.01574051838221, 0.020790367708, 0.01374824256746, -0.0002699991783147,
  -0.01270105351999, -0.01676734664891, -0.0111288961872, -4.475403619511e-5,
  0.009691380444807, 0.01289067561247, 0.008679756232888, 0.0004058293862064,
  -0.006838346152016, -0.009310052976893, -0.00648204619663, -0.0007859392674331,
  0.004249085774038, 0.006140822298526, 0.004587232335073, 0.001152039978604,
  -0.002013053775461, -0.003466049687554, -0.003026923786416, -0.001476763571776,
  0.0001842960506553, 0.001324207637989, 0.001803132181831, 0.001732619687145,
  0.001209127755516, 0.0002789236947357, -0.0008965043651263, -0.0018941995205,
  -0.002167955417139, -0.00137424966707, 0.0002579197074577, 0.001947288802137,
  0.002724130491097, 0.002042365178714, 0.000176607267872, -0.001877699968029,
  -0.00294945158108, -0.002404336779334, -0.0005227149950744, 0.001673669433141,
  0.003002161360111, 0.002764623266707, 0.00105619593972, -0.001422540633262,
  -0.003755969174496, -0.00481863345601, -0.001865117008976, 0.01498794223805,
  -0.003938724014889]

/-- Coefficient table `_AR_NOTCH_100` (197 taps). -/
def AR_NOTCH_100 : List ℚ := [
  -0.002835341706497, 0.001357021092775, 0.00175356890369, 0.001129854492479,
  -3.898195586601e-5, -0.0002815145954316, 0.0006559317770359, 0.001258212258998,
  0.0004074218041138, -0.0008328389981926, -0.0006417811196973, 0.0007845116098433,
  0.001306407285182, -3.890762717271e-5, -0.001393103820573, -0.0006562340289416,
  0.001256224591407, 0.001481411305598, -0.0005515915152469, -0.001955420949703,
  -0.0004655602629604, 0.001954569984419, 0.001653704771924, -0.001245703006958,
  -0.002576224140045, -8.562413210186e-5, 0.002855166175721, 0.001770032672193,
  -0.002167032894025, -0.003264818645718, 0.0004984262094065, 0.003954047952307,
  0.001800678687775, -0.003339050117764, -0.004009382444471, 0.001305421482753,
  0.005242021640411, 0.001719862606388, -0.004761209243408, -0.004791344206009,
  0.002339460920238, 0.006701631671367, 0.00151348217106, -0.00642307242477,
  -0.005585993065435, 0.00359937869174, 0.008296651177509, 0.001170563293345,
  -0.008293615203173, -0.006362934202574, 0.005064382060221, 0.009985481419449,
  0.0006825066860324, -0.01032537575322, -0.007089450639715, 0.006703478948926,
  0.01171492774282, 5.558896525801e-5, -0.01245684990799, -0.007734407708285,
  0.008469693012766, 0.01342120413383, -0.0006986546027121, -0.01461575165985,
  -0.008264285525365, 0.01030648212637, 0.01503709209646, -0.001563704220335,
  -0.01672315382957, -0.008653838334245, 0.01214742259776, 0.01649583992593,
  -0.002509423785324, -0.0186922937057, -0.008876538768586, 0.01392236088611, 0.01773102537182,
  -0.003506350047652, -0.02044106624852, -0.008918181649677, 0.0155592567876, 0.0186858191538,
  -0.004515813569513, -0.02189212963195, -0.008769502924452, 0.01698702848407,
  0.01931209412077, -0.005499668729845, -0.02298006790919, -0.00843068702697, 0.01814655294461,
  0.01957955016412, -0.006416572034826, -0.02365340678162, -0.007911821111184,
  0.01898584200756, 0.01946985961327, -0.007232448489726, 0.9761181181575, -0.007232448489726,
  0.01946985961327, 0.01898584200756, -0.007911821111184, -0.02365340678162,
  -0.006416572034826, 0.01957955016412, 0.01814655294461, -0.00843068702697, -0.02298006790919,
  -0.005499668729845, 0.01931209412077, 0.01698702848407, -0.008769502924452,
  -0.02189212963195, -0.004515813569513, 0.0186858191538, 0.0155592567876, -0.008918181649677,
  -0.02044106624852, -0.003506350047652, 0.01773102537182, 0.01392236088611,
  -0.008876538768586, -0.0186922937057, -0.002509423785324, 0.01649583992593, 0.01214742259776,
  -0.008653838334245, -0.01672315382957, -0.001563704220335, 0.01503709209646,
  0.01030648212637, -0.008264285525365, -0.01461575165985, -0.0006986546027121,
  0.01342120413383, 0.008469693012766, -0.007734407708285, -0.01245684990799,
  5.558896525801e-5, 0.01171492774282, 0.006703478948926, -0.007089450639715,
  -0.01032537575322, 0.0006825066860324, 0.009985481419449, 0.005064382060221,
  -0.006362934202574, -0.008293615203173, 0.001170563293345, 0.008296651177509,
  0.00359937869174, -0.005585993065435, -0.00642307242477, 0.00151348217106, 0.006701631671367,
  0.002339460920238, -0.004791344206009, -0.004761209243408, 0.001719862606388,
  0.005242021640411, 0.001305421482753, -0.004009382444471, -0.003339050117764,
  0.001800678687775, 0.003954047952307, 0.0004984262094065, -0.003264818645718,
  -0.002167032894025, 0.001770032672193, 0.002855166175721, -8.562413210186e-5,
  -0.002576224140045, -0.001245703006958, 0.001653704771924, 0.001954569984419,
  -0.0004655602629604, -0.001955420949703, -0.0005515915152469, 0.001481411305598,
  0.001256224591407, -0.0006562340289416, -0.001393103820573, -3.890762717271e-5,
  0.001306407285182, 0.0007845116098433, -0.0006417811196973, -0.0008328389981926,
  0.0004074218041138, 0.001258212258998, 0.0006559317770359, -0.0002815145954316,
  -3.898195586601e-5, 0.001129854492479, 0.00175356890369, 0.001357021092775,
  -0.002835341706497]

/-- Coefficient table `_AR_NOTCH_120` (139 taps). -/
def AR_NOTCH_120 : List ℚ := [
  -0.0007077329552539, 0.0004374227402429, -0.002513043990322, 0.001782921359836,
  0.003312258522623, 0.0003646721323143, -0.002062395589157, 0.0002605447002675,
  0.003261226815259, 0.0008157219122604, -0.003351840853863, -0.0012076808048,
  0.004039203014024, 0.00227207014827, -0.004251847915865, -0.003253514779951,
  0.004494591952332, 0.004549190635791, -0.0044016767273, -0.005894351656157,
  0.004096516276108, 0.007368375546061, -0.003441402912894, -0.008840576371352,
  0.002458687451915, 0.01027728949366, -0.001102014596509, -0.01157774077039,
  -0.0006122707555235, 0.01266562195632, 0.002671814555023, -0.01344918208618,
  -0.00503082228635, 0.01384952153264, 0.007633337432553, -0.01379216229332, -0.01039494105926,
  0.01322205483581, 0.01322093285513, -0.01209709021646, -0.01599806042988, 0.01039745441436,
  0.0186103161347, -0.008134614471262, -0.020936368209, 0.005343114825425, 0.02285266871436,
  -0.002082142661501, -0.02425779398635, -0.001556591988254, 0.02505217441054,
  0.005466695309395, -0.02516728586531, -0.009519347835828, 0.02455536488146, 0.01357178029544,
  -0.02319770976173, -0.01747863298909, 0.02110980313091, 0.02108957686829, -0.01833521110965,
  -0.02426544418598, 0.01495227121498, 0.02688007, -0.01106237266721, -0.02882780419668,
  0.006794852858838, 0.03002907156542, -0.002291228549343, 0.9695648129037, -0.002291228549343,
  0.03002907156542, 0.006794852858838, -0.02882780419668, -0.01106237266721, 0.02688007,
  0.01495227121498, -0.02426544418598, -0.01833521110965, 0.02108957686829, 0.02110980313091,
  -0.01747863298909, -0.02319770976173, 0.01357178029544, 0.02455536488146, -0.009519347835828,
  -0.02516728586531, 0.005466695309395, 0.02505217441054, -0.001556591988254,
  -0.02425779398635, -0.002082142661501, 0.02285266871436, 0.005343114825425, -0.020936368209,
  -0.008134614471262, 0.0186103161347, 0.01039745441436, -0.01599806042988, -0.01209709021646,
  0.01322093285513, 0.01322205483581, -0.01039494105926, -0.01379216229332, 0.007633337432553,
  0.01384952153264, -0.00503082228635, -0.01344918208618, 0.002671814555023, 0.01266562195632,
  -0.0006122707555235, -0.01157774077039, -0.001102014596509, 0.01027728949366,
  0.002458687451915, -0.008840576371352, -0.003441402912894, 0.007368375546061,
  0.004096516276108, -0.005894351656157, -0.0044016767273, 0.004549190635791,
  0.004494591952332, -0.003253514779951, -0.004251847915865, 0.00227207014827,
  0.004039203014024, -0.0012076808048, -0.003351840853863, 0.0008157219122604,
  0.003261226815259, 0.0002605447002675, -0.002062395589157, 0.0003646721323143,
  0.003312258522623, 0.001782921359836, -0.002513043990322, 0.0004374227402429,
  -0.0007077329552539]

/-- `NotchEcgFilter` state: coefficient table, ring buffer, write index. -/
structure NotchState where
  ar_notch : List ℚ
  ar_result : List ℚ
  indx : Nat
deriving DecidableEq, Repr

/-- `NotchEcgFilter.__init__`: unrecognized frequencies get an empty
table (identity passthrough). -/
def notchInit (freq : Nat) : NotchState :=
  let ar := if freq = 50 then AR_NOTCH_50 else if freq = 60 then AR_NOTCH_60
    else if freq = 100 then AR_NOTCH_100 else if freq = 120 then AR_NOTCH_120
    else []
  { ar_notch := ar, ar_result := List.replicate ar.length 0, indx := 0 }

/-- The accumulation loop of `NotchEcgFilter.get_new_val`: read the ring
buffer backward from the write index, wrapping to `N - 1`. -/
def notchLoop (ar_result : List ℚ) (N : Nat) : List ℚ → Nat → ℚ → ℚ
  | [], _, acc => acc
  | coef :: rest, idx, acc =>
    notchLoop ar_result N rest (if idx = 0 then N - 1 else idx - 1)
      (acc + ar_result.getD idx 0 * coef)

/-- `NotchEcgFilter.get_new_val`. -/
def notch_get_new_val (st : NotchState) (val : ℚ) : NotchState × ℚ :=
  if st.ar_notch.length = 0 then (st, val)
  else
    let ar_result := st.ar_result.set st.indx val
    let acc := notchLoop ar_result st.ar_notch.length st.ar_notch st.indx 0
    ({ st with ar_result := ar_result, indx := (st.indx + 1) % st.ar_notch.length },
      acc)

/-- `MultiNotchFilter.__init__`: one notch filter per supported frequency. -/
def multiNotchInit (frequencies : List Nat) : List NotchState :=
  (frequencies.filter (fun f => decide (f = 50 ∨ f = 60 ∨ f = 100 ∨ f = 120))).map
    notchInit

/-- `MultiNotchFilter.get_new_val`: apply all notch filters in series. -/
def multiNotchStep : List NotchState → ℚ → List NotchState × ℚ
  | [], val => ([], val)
  | st :: rest, val =>
    let r := notch_get_new_val st val
    let r2 := multiNotchStep rest r.2
    (r.1 :: r2.1, r2.2)

/-- `BaselineFilter` state (`alpha` precomputed at construction). -/
structure BaselineState where
  alpha : ℚ
  prev_input : ℚ
  prev_output : ℚ
deriving DecidableEq, Repr

/-- `BaselineFilter.__init__` with `RC = 1/(2·3.14159·cutoff)` and
`dt = 1/samplingRate`. -/
def baselineInit (cutoff_hz : ℚ) (sampling_rate : Nat) : BaselineState :=
  let rc : ℚ := 1 / (2 * (3.14159 : ℚ) * cutoff_hz)
  let dt : ℚ := 1 / (sampling_rate : ℚ)
  { alpha := rc / (rc + dt), prev_input := 0, prev_output := 0 }

/-- `BaselineFilter.get_new_val`. -/
def baseline_get_new_val (st : BaselineState) (val : ℚ) : BaselineState × ℚ :=
  let output := st.alpha * (st.prev_output + val - st.prev_input)
  ({ st with prev_input := val, prev_output := output }, output)

/-- `SmoothingFilter` state: FIFO of the last `window_size` samples. -/
structure SmoothState where
  window_size : Nat
  buffer : List ℚ
deriving DecidableEq, Repr

def smoothInit (window_size : Nat) : SmoothState := ⟨window_size, []⟩

/-- `SmoothingFilter.get_new_val`: append, then return the mean of the
buffer (Python would raise `ZeroDivisionError` for `window_size = 0`,
where `ℚ` division by zero gives 0). -/
def smooth_get_new_val (st : SmoothState) (val : ℚ) : SmoothState × ℚ :=
  let b0 := st.buffer ++ [val]
  let b := if st.window_size < b0.length then b0.drop (b0.length - st.window_size)
    else b0
  ({ st with buffer := b }, b.sum / (b.length : ℚ))

/-- `HPFilterType` enum. -/
inductive HPFilterType where
  | HP005
  | HP015
  | HP05
deriving DecidableEq, Repr

/-- `HiPassFilter` state: per-cutoff coefficients and the 3-element input
and output histories. -/
structure HPState where
  HP0 : ℚ
  HP1 : ℚ
  GAIN : ℚ
  xv0 : ℚ
  xv1 : ℚ
  xv2 : ℚ
  yv0 : ℚ
  yv1 : ℚ
  yv2 : ℚ
deriving DecidableEq, Repr

/-- `HiPassFilter.__init__`. -/
def hpInit (t : HPFilterType) : HPState :=
  match t with
  | .HP05 =>
    { HP0 := -0.9878018507, HP1 := 1.9877269954, GAIN := 1.006155446,
      xv0 := 0, xv1 := 0, xv2 := 0, yv0 := 0, yv1 := 0, yv2 := 0 }
  | .HP015 =>
    { HP0 := -0.9963349287, HP1 := 1.9963282000, GAIN := 1.001837588,
      xv0 := 0, xv1 := 0, xv2 := 0, yv0 := 0, yv1 := 0, yv2 := 0 }
  | .HP005 =>
    { HP0 := -0.9987734371, HP1 := 1.9987726844, GAIN := 1.00061384,
      xv0 := 0, xv1 := 0, xv2 := 0, yv0 := 0, yv1 := 0, yv2 := 0 }

/-- `HiPassFilter.insert_new_val`. -/
def hp_insert_new_val (st : HPState) (val : ℚ) : HPState :=
  { st with xv0 := st.xv1, xv1 := st.xv2, xv2 := val / st.GAIN }

/-- `HiPassFilter.get_new_val`. -/
def hp_get_new_val (st : HPState) (val : ℚ) : HPState × ℚ :=
  let st := hp_insert_new_val st val
  let yv0 := st.yv1
  let yv1 := st.yv2
  let yv2 := (st.xv0 + st.xv2) - 2 * st.xv1 + st.HP0 * yv0 + st.HP1 * yv1
  ({ st with yv0 := yv0, yv1 := yv1, yv2 := yv2 }, yv2)

/-- Python `int(y)` for a float `y`: truncation toward zero, on `ℚ`. -/
def pyInt (q : ℚ) : Int :=
  if 0 ≤ q.num then q.num / (q.den : Int) else -((-q.num) / (q.den : Int))

/-! ## Pipeline embedding (`src/ecg_glove.py::EcgGlove._filter_signal`) -/

/-- The notch component held by `EcgGlove`: a single filter or a
multi-frequency chain. -/
inductive NotchKind where
  | single (st : NotchState)
  | multi (sts : List NotchState)
deriving DecidableEq, Repr

/-- Dispatch `get_new_val` on the notch component. -/
def notchKindStep : NotchKind → ℚ → NotchKind × ℚ
  | .single st, v =>
    let r := notch_get_new_val st v
    (.single r.1, r.2)
  | .multi sts, v =>
    let r := multiNotchStep sts v
    (.multi r.1, r.2)

/-- The `EcgGlove.__init__` arguments the filter pipeline consumes. -/
structure GloveConfig where
  filters : List Nat
  spike_removal : Bool
  hp_filter_type : HPFilterType
  powerline_freq : Nat
  enable_baseline_correction : Bool
  enable_smoothing : Bool
  smoothing_window : Nat
  sampling_rate : Nat

/-- The per-lead filter state held by `EcgGlove` (`baseline_filter` and
`smoothing_filter` attributes exist only when enabled, hence `Option`). -/
structure GloveState where
  notch : NotchKind
  morph : MorphState
  hp : HPState
  baseline : Option BaselineState
  smoothing : Option SmoothState

/-- `EcgGlove.__init__` lines 65–92: notch selection (multi only when
more than one frequency is given and at least one is supported),
morphology and high-pass filters, optional baseline and smoothing. -/
def gloveInit (cfg : GloveConfig) : GloveState :=
  { notch :=
      if 1 < cfg.filters.length then
        let valid := cfg.filters.filter
          (fun f => decide (f = 50 ∨ f = 60 ∨ f = 100 ∨ f = 120))
        if valid ≠ [] then .multi (valid.map notchInit)
        else .single (notchInit cfg.powerline_freq)
      else .single (notchInit cfg.powerline_freq)
    morph := morphInit
    hp := hpInit cfg.hp_filter_type
    baseline :=
      if cfg.enable_baseline_correction then
        some (baselineInit (1 / 2) cfg.sampling_rate)
      else none
    smoothing :=
      if cfg.enable_smoothing then some (smoothInit cfg.smoothing_window) else none }

/-- The loop body of `EcgGlove._filter_signal` for one sample:
optional baseline correction, then notch, then morphology (on `int(y)`)
when `spike_removal` else the IIR high-pass, then optional smoothing. -/
def filterStep (cfg : GloveConfig) (st : GloveState) (x : ℚ) : GloveState × ℚ :=
  let y0 := x
  let b : Option BaselineState × ℚ :=
    if cfg.enable_baseline_correction ∧ st.baseline.isSome then
      match st.baseline with
      | some bst =>
        let r := baseline_get_new_val bst y0
        (some r.1, r.2)
      | none => (st.baseline, y0)
    else (st.baseline, y0)
  let n := notchKindStep st.notch b.2
  let m : (MorphState × HPState) × ℚ :=
    if cfg.spike_removal then
      let r := compute_hpf st.morph (pyInt n.2)
      ((r.1, st.hp), ((r.2 : Int) : ℚ))
    else
      let r := hp_get_new_val st.hp n.2
      ((st.morph, r.1), r.2)
  let s : Option SmoothState × ℚ :=
    if cfg.enable_smoothing ∧ st.smoothing.isSome then
      match st.smoothing with
      | some sst =>
        let r := smooth_get_new_val sst m.2
        (some r.1, r.2)
      | none => (st.smoothing, m.2)
    else (st.smoothing, m.2)
  (⟨n.1, m.1.1, m.1.2, b.1, s.1⟩, s.2)

/-- `EcgGlove._filter_signal`: the per-sample pipeline applied over the
whole signal. -/
def filterSignal (cfg : GloveConfig) (st : GloveState) (xs : List ℚ) : List ℚ :=
  statefulRun (filterStep cfg) st xs

/-! ## Specification-side recurrences for the morphology filter (C7) -/

/-- The median the code takes of the last 8 inputs up to index `n`:
the upper middle element (index 4) of the ascending sort of the window. -/
def medianOfLast8 (xs : List Int) (n : Nat) : Int :=
  let window := (xs.take (n + 1)).drop (n + 1 - 8)
  let sorted := List.insertionSort (· ≤ ·) window
  sorted.getD (sorted.length / 2) 0

/-- The claim's recurrence, amended: the first 7 outputs equal the
inputs and do not touch `previousOutput`, which starts at 0 and is
updated to the returned value only from the 8th sample onward. -/
def morphSpecOut (xs : List Int) : Nat → Int
  | 0 => xs.getD 0 0
  | n + 1 =>
    if n + 1 < 7 then xs.getD (n + 1) 0
    else pyIntBlend (xs.getD (n + 1) 0 - medianOfLast8 xs (n + 1))
      (if n + 1 = 7 then 0 else morphSpecOut xs n)

/-- The claim's recurrence as stated: `previousOutput` is updated to the
returned value at every step, including the first 7 pass-through steps. -/
def morphStatedOut (xs : List Int) : Nat → Int
  | 0 => xs.getD 0 0
  | n + 1 =>
    if n + 1 < 7 then xs.getD (n + 1) 0
    else pyIntBlend (xs.getD (n + 1) 0 - medianOfLast8 xs (n + 1))
      (morphStatedOut xs n)

/-- The state of the morphology filter after consuming the samples `p`:
the buffer holds the last 8 inputs, the flag records whether 8 samples
have arrived, and `previous_output` is 0 until the 8th sample. -/
def morphStateAfter (p : List Int) : MorphState :=
  { buffer :=
      { buffersize := 8
        buffer := p.drop (p.length - 8)
        filled := decide (8 ≤ p.length) }
    previous_output := if p.length < 8 then 0 else morphSpecOut p (p.length - 1) }

/-- §4.4 of the spec, stated in the spec's own terms: the per-sample
pipeline is baseline correction only if enabled, then notch filtering
(single filter or chained multi-frequency filters), then exactly one of
morphology spike-removal (when spike removal is on) or the IIR high-pass
(otherwise), then smoothing only if enabled. This definition follows the
spec's words; it is compared against `filterStep`, which is translated
from the code. -/
def specPipelineStep (cfg : GloveConfig) (st : GloveState) (x : ℚ) : GloveState × ℚ :=
  let stage1 : Option BaselineState × ℚ :=
    match cfg.enable_baseline_correction, st.baseline with
    | true, some bst =>
      let r := baseline_get_new_val bst x
      (some r.1, r.2)
    | _, _ => (st.baseline, x)
  let stage2 : NotchKind × ℚ := notchKindStep st.notch stage1.2
  let stage3 : (MorphState × HPState) × ℚ :=
    match cfg.spike_removal with
    | true =>
      let r := compute_hpf st.morph (pyInt stage2.2)
      ((r.1, st.hp), ((r.2 : Int) : ℚ))
    | false =>
      let r := hp_get_new_val st.hp stage2.2
      ((st.morph, r.1), r.2)
  let stage4 : Option SmoothState × ℚ :=
    match cfg.enable_smoothing, st.smoothing with
    | true, some sst =>
      let r := smooth_get_new_val sst stage3.2
      (some r.1, r.2)
    | _, _ => (st.smoothing, stage3.2)
  (⟨stage2.1, stage3.1.1, stage3.1.2, stage1.1, stage4.1⟩, stage4.2)

/-- `NotchFilter.get_new_val` run on a whole signal from a fresh filter. -/
def notchRun (freq : Nat) (xs : List ℚ) : List ℚ :=
  statefulRun notch_get_new_val (notchInit freq) xs

/-- `MultiNotchFilter.get_new_val` run on a whole signal from fresh chained filters. -/
def multiNotchRun (freqs : List Nat) (xs : List ℚ) : List ℚ :=
  statefulRun multiNotchStep (freqs.map notchInit) xs

/-- `MorphologyFilter.compute_hpf` run on a whole signal from a fresh filter. -/
def morphRun (xs : List Int) : List Int :=
  statefulRun compute_hpf morphInit xs

/-- `HiPassFilter.get_new_val` run on a whole signal from a fresh filter. -/
def hpRun (t : HPFilterType) (xs : List ℚ) : List ℚ :=
  statefulRun hp_get_new_val (hpInit t) xs

/-- `BaselineFilter.get_new_val` run on a whole signal from a fresh filter. -/
def baselineRun (cutoff : ℚ) (fs : Nat) (xs : List ℚ) : List ℚ :=
  statefulRun baseline_get_new_val (baselineInit cutoff fs) xs

/-- `SmoothingFilter.get_new_val` run on a whole signal from a fresh filter. -/
def smoothRun (w : Nat) (xs : List ℚ) : List ℚ :=
  statefulRun smooth_get_new_val (smoothInit w) xs

/-- Any sufficient amount of fuel gives the same result. -/
theorem decode_frames_go_irrel (f1 : Nat) :
    ∀ (f2 : Nat) (data : List Nat) (fs : Nat) (chs : Channels),
      data.length - fs ≤ f1 → data.length - fs ≤ f2 →
      decode_frames_go f1 data fs chs = decode_frames_go f2 data fs chs := by
  induction f1 with
  | zero =>
    intro f2 data fs chs h1 h2
    cases f2 with
    | zero => rfl
    | succ f2 =>
      simp only [decode_frames_go, if_neg (show ¬ fs < data.length by omega)]
  | succ f1 ih =>
    intro f2 data fs chs h1 h2
    cases f2 with
    | zero =>
      simp only [decode_frames_go, if_neg (show ¬ fs < data.length by omega)]
    | succ f2 =>
      simp only [decode_frames_go]
      by_cases hlt : fs < data.length
      · rw [if_pos hlt, if_pos hlt]
        exact ih f2 data (fs + 16) _ (by omega) (by omega)
      · rw [if_neg hlt, if_neg hlt]

/-- The loop equation of the frame loop. -/
theorem decode_frames_unfold (data : List Nat) (fs : Nat) (channels : Channels) :
    decode_frames data fs channels =
      if fs < data.length then
        let frame := (data.drop fs).take 16
        decode_frames data (fs + 16)
          (if frame.length = 16 then decode_ecg_frame frame channels else channels)
      else channels := by
  unfold decode_frames
  by_cases hlt : fs < data.length
  · rw [show data.length - fs = (data.length - fs - 1) + 1 by omega]
    simp only [decode_frames_go, if_pos hlt]
    exact decode_frames_go_irrel _ _ data (fs + 16) _ (by omega) (by omega)
  · rw [show data.length - fs = 0 by omega]
    simp only [decode_frames_go, if_neg hlt]

/-- Any sufficient amount of fuel gives the same scan result. -/
theorem find_next_packet_go_irrel (f1 : Nat) :
    ∀ (f2 : Nat) (data : List Nat) (i : Nat),
      data.length - i ≤ f1 → data.length - i ≤ f2 →
      find_next_packet_go f1 data i = find_next_packet_go f2 data i := by
  induction f1 with
  | zero =>
    intro f2 data i h1 h2
    cases f2 with
    | zero => rfl
    | succ f2 =>
      simp only [find_next_packet_go, if_neg (show ¬ i < data.length by omega)]
  | succ f1 ih =>
    intro f2 data i h1 h2
    cases f2 with
    | zero =>
      simp only [find_next_packet_go, if_neg (show ¬ i < data.length by omega)]
    | succ f2 =>
      simp only [find_next_packet_go]
      by_cases hlt : i < data.length
      · rw [if_pos hlt, if_pos hlt]
        by_cases hsync : data.getD i 0 ≠ SYNC_BYTE
        · rw [if_pos hsync, if_pos hsync]
          exact ih f2 data (i + 1) (by omega) (by omega)
        · rw [if_neg hsync, if_neg hsync]
          by_cases hshort : data.length < i + HEADER_SIZE
          · rw [if_pos hshort, if_pos hshort]
          · rw [if_neg hshort, if_neg hshort]
            cases decode_header ((data.drop i).take HEADER_SIZE) with
            | none => exact ih f2 data (i + 1) (by omega) (by omega)
            | some packet_type => rfl
      · rw [if_neg hlt, if_neg hlt]

/-- The loop equation of `_find_next_packet`. -/
theorem find_next_packet_unfold (data : List Nat) (i : Nat) :
    find_next_packet data i =
      (if i < data.length then
        if data.getD i 0 ≠ SYNC_BYTE then
          find_next_packet data (i + 1)
        else if data.length < i + HEADER_SIZE then
          (i, none)
        else
          match decode_header ((data.drop i).take HEADER_SIZE) with
          | none => find_next_packet data (i + 1)
          | some packet_type =>
            let payload_size :=
              if packet_type = ECG_PACKET_TYPE then ECG_PAYLOAD_SIZE
              else if packet_type = FAULT_PACKET_TYPE then FAULT_PAYLOAD_SIZE
              else 0
            let packet_end := i + HEADER_SIZE + payload_size
            if data.length < packet_end then (i, none)
            else
              let payload := (data.drop (i + HEADER_SIZE)).take payload_size
              (packet_end, some ⟨packet_type, payload, verify_checksum payload⟩)
      else (i, none)) := by
  unfold find_next_packet
  by_cases hlt : i < data.length
  · rw [show data.length - i = (data.length - i - 1) + 1 by omega]
    simp only [find_next_packet_go, if_pos hlt]
    by_cases hsync : data.getD i 0 ≠ SYNC_BYTE
    · rw [if_pos hsync, if_pos hsync]
      exact find_next_packet_go_irrel _ _ data (i + 1) (by omega) (by omega)
    · rw [if_neg hsync, if_neg hsync]
      by_cases hshort : data.length < i + HEADER_SIZE
      · rw [if_pos hshort, if_pos hshort]
      · rw [if_neg hshort, if_neg hshort]
        cases decode_header ((data.drop i).take HEADER_SIZE) with
        | none => exact find_next_packet_go_irrel _ _ data (i + 1) (by omega) (by omega)
        | some packet_type => rfl
  · rw [show data.length - i = 0 by omega]
    simp only [find_next_packet_go, if_neg hlt]

/-- When `_find_next_packet` returns a packet, the returned resume
position is at least a full header past the scan start. -/
theorem find_next_packet_some_ge (data : List Nat) (i : Nat)
    (h : (find_next_packet data i).2.isSome) :
    i + HEADER_SIZE ≤ (find_next_packet data i).1 := by
  generalize hk : data.length - i = k
  induction k using Nat.strong_induction_on generalizing i with
  | _ k ih =>
    rw [find_next_packet_unfold] at h ⊢
    split at h
    case isFalse => simp at h
    case isTrue hlt =>
      rw [if_pos hlt]
      split at h
      case isTrue hsync =>
        rw [if_pos hsync]
        exact le_trans (by omega) (ih (data.length - (i + 1)) (by omega) (i + 1) h rfl)
      case isFalse hsync =>
        rw [if_neg hsync]
        split at h
        case isTrue hshort => simp at h
        case isFalse hshort =>
          rw [if_neg hshort]
          split at h
          case h_1 heq =>
            exact le_trans (by omega) (ih (data.length - (i + 1)) (by omega) (i + 1) h rfl)
          case h_2 pt heq =>
            generalize (if pt = ECG_PACKET_TYPE then ECG_PAYLOAD_SIZE
              else if pt = FAULT_PACKET_TYPE then FAULT_PAYLOAD_SIZE else 0) = ps at h ⊢
            dsimp only at h ⊢
            split at h
            case isTrue => simp at h
            case isFalse hpe =>
              rw [if_neg hpe]
              exact Nat.le_add_right _ _

/-- Any sufficient amount of fuel gives the same loop result. -/
theorem decode_loop_go_irrel (f1 : Nat) :
    ∀ (f2 : Nat) (data : List Nat) (pos : Nat) (chs : Channels),
      data.length - pos ≤ f1 → data.length - pos ≤ f2 →
      decode_loop_go f1 data pos chs = decode_loop_go f2 data pos chs := by
  induction f1 with
  | zero =>
    intro f2 data pos chs h1 h2
    cases f2 with
    | zero => rfl
    | succ f2 =>
      simp only [decode_loop_go, if_neg (show ¬ pos < data.length by omega)]
  | succ f1 ih =>
    intro f2 data pos chs h1 h2
    cases f2 with
    | zero =>
      simp only [decode_loop_go, if_neg (show ¬ pos < data.length by omega)]
    | succ f2 =>
      simp only [decode_loop_go]
      by_cases hlt : pos < data.length
      · rw [if_pos hlt, if_pos hlt]
        rcases hf : find_next_packet data pos with ⟨np, opkt⟩
        cases opkt with
        | none => rfl
        | some pkt =>
          have hge := find_next_packet_some_ge data pos (by rw [hf]; rfl)
          rw [hf] at hge
          simp only [HEADER_SIZE] at hge
          exact ih f2 data np _ (by omega) (by omega)
      · rw [if_neg hlt, if_neg hlt]

/-- Any sufficient amount of fuel gives the same accepted payloads. -/
theorem acceptedPayloads_go_irrel (f1 : Nat) :
    ∀ (f2 : Nat) (data : List Nat) (pos : Nat),
      data.length - pos ≤ f1 → data.length - pos ≤ f2 →
      acceptedPayloads_go f1 data pos = acceptedPayloads_go f2 data pos := by
  induction f1 with
  | zero =>
    intro f2 data pos h1 h2
    cases f2 with
    | zero => rfl
    | succ f2 =>
      simp only [acceptedPayloads_go, if_neg (show ¬ pos < data.length by omega)]
  | succ f1 ih =>
    intro f2 data pos h1 h2
    cases f2 with
    | zero =>
      simp only [acceptedPayloads_go, if_neg (show ¬ pos < data.length by omega)]
    | succ f2 =>
      simp only [acceptedPayloads_go]
      by_cases hlt : pos < data.length
      · rw [if_pos hlt, if_pos hlt]
        rcases hf : find_next_packet data pos with ⟨np, opkt⟩
        cases opkt with
        | none => rfl
        | some pkt =>
          have hge := find_next_packet_some_ge data pos (by rw [hf]; rfl)
          rw [hf] at hge
          simp only [HEADER_SIZE] at hge
          dsimp only
          rw [ih f2 data np (by omega) (by omega)]
      · rw [if_neg hlt, if_neg hlt]

/-- Any sufficient amount of fuel gives the same chunked result. -/
theorem framesList_go_irrel (f1 : Nat) :
    ∀ (f2 : Nat) (data : List Nat) (chs : Channels),
      data.length ≤ f1 → data.length ≤ f2 →
      framesList_go f1 data chs = framesList_go f2 data chs := by
  induction f1 with
  | zero =>
    intro f2 data chs h1 h2
    cases f2 with
    | zero => rfl
    | succ f2 =>
      simp only [framesList_go, if_neg (show ¬ 16 ≤ data.length by omega)]
  | succ f1 ih =>
    intro f2 data chs h1 h2
    cases f2 with
    | zero =>
      simp only [framesList_go, if_neg (show ¬ 16 ≤ data.length by omega)]
    | succ f2 =>
      simp only [framesList_go]
      by_cases h16 : 16 ≤ data.length
      · rw [if_pos h16, if_pos h16]
        exact ih f2 (data.drop 16) _ (by simp only [List.length_drop]; omega)
          (by simp only [List.length_drop]; omega)
      · rw [if_neg h16, if_neg h16]

/-- The loop equation of the chunk view. -/
theorem framesList_unfold (data : List Nat) (channels : Channels) :
    framesList data channels =
      if 16 ≤ data.length then
        framesList (data.drop 16) (decode_ecg_frame (data.take 16) channels)
      else channels := by
  unfold framesList
  by_cases h16 : 16 ≤ data.length
  · rw [if_pos h16, show data.length = (data.length - 1) + 1 by omega]
    simp only [framesList_go, if_pos h16]
    exact framesList_go_irrel (data.length - 1) (data.drop 16).length (data.drop 16) _
      (by simp only [List.length_drop]; omega) (le_refl _)
  · rw [if_neg h16]
    cases hz : data.length with
    | zero => rfl
    | succ n => simp only [framesList_go, if_neg h16]

/-- The index-based frame loop of `_decode_ecg_packet` equals the
structural chunk recursion on the remaining data. -/
theorem decode_frames_eq_framesList (data : List Nat) (fs : Nat) (chs : Channels) :
    decode_frames data fs chs = framesList (data.drop fs) chs := by
  generalize hk : data.length - fs = k
  induction k using Nat.strong_induction_on generalizing fs chs with
  | _ k ih =>
    rw [decode_frames_unfold, framesList_unfold]
    by_cases hlt : fs < data.length
    · rw [if_pos hlt]
      have hlen : ((data.drop fs).take 16).length = min 16 (data.length - fs) := by
        simp [List.length_take, List.length_drop]
      by_cases h16 : 16 ≤ data.length - fs
      · rw [if_pos (by simpa using h16)]
        have hfr : ((data.drop fs).take 16).length = 16 := by omega
        dsimp only
        rw [if_pos hfr, ih (data.length - (fs + 16)) (by omega) (fs + 16) _ rfl,
          List.drop_drop]
      · rw [if_neg (by simpa using h16)]
        have hfr : ((data.drop fs).take 16).length ≠ 16 := by omega
        dsimp only
        rw [if_neg hfr, ih (data.length - (fs + 16)) (by omega) (fs + 16) _ rfl]
        have : data.drop (fs + 16) = [] := by
          apply List.drop_eq_nil_of_le; omega
        rw [this, framesList_unfold]
        simp
    · rw [if_neg hlt]
      have : data.drop fs = [] := by apply List.drop_eq_nil_of_le; omega
      rw [this, framesList_unfold]
      simp

/-- Each `framesList` pass only appends to a channel; the appended part
does not depend on the incoming accumulator. -/
theorem framesList_append_channels (data : List Nat) (chs : Channels) (ch : Fin 8) :
    framesList data chs ch = chs ch ++ framesList data emptyChannels ch := by
  generalize hk : data.length = k
  induction k using Nat.strong_induction_on generalizing data chs with
  | _ k ih =>
    rw [framesList_unfold]
    by_cases h16 : 16 ≤ data.length
    · rw [if_pos h16, ih (data.drop 16).length (by simp [List.length_drop]; omega)
        (data.drop 16) _ rfl]
      conv_rhs =>
        rw [framesList_unfold, if_pos h16, ih (data.drop 16).length
          (by simp [List.length_drop]; omega) (data.drop 16) _ rfl]
      simp [decode_ecg_frame, emptyChannels]
    · rw [if_neg h16]
      conv_rhs => rw [framesList_unfold, if_neg h16]
      simp [emptyChannels]

/-- Number of samples a `framesList` pass appends to every channel:
one per complete 16-byte chunk. -/
theorem framesList_length (data : List Nat) (chs : Channels) (ch : Fin 8) :
    (framesList data chs ch).length = (chs ch).length + data.length / 16 := by
  generalize hk : data.length = k
  induction k using Nat.strong_induction_on generalizing data chs with
  | _ k ih =>
    rw [framesList_unfold]
    by_cases h16 : 16 ≤ data.length
    · rw [if_pos h16, ih (data.drop 16).length (by simp [List.length_drop]; omega)
        (data.drop 16) _ rfl]
      simp only [decode_ecg_frame, List.length_append, List.length_singleton,
        List.length_drop]
      omega
    · rw [if_neg h16]
      omega

/-- `_decode_ecg_packet` appends exactly `packetSamples` to each channel
when the checksum passes, and nothing otherwise. -/
theorem decode_ecg_packet_snd (payload : List Nat) (chs : Channels) (ch : Fin 8) :
    (decode_ecg_packet payload chs).2 ch =
      chs ch ++
        (if verify_checksum payload = true then packetSamples payload ch else []) := by
  unfold decode_ecg_packet packetSamples
  split
  case isTrue h =>
    show decode_frames payload.dropLast 0 chs ch = _
    rw [decode_frames_eq_framesList, decode_frames_eq_framesList,
      framesList_append_channels]
  case isFalse h =>
    simp

/-- Unfolding `decode_loop` when the scan finds no further packet. -/
theorem decode_loop_none (data : List Nat) (pos np : Nat) (chs : Channels)
    (h : pos < data.length) (hf : find_next_packet data pos = (np, none)) :
    decode_loop data pos chs = chs := by
  unfold decode_loop
  rw [show data.length - pos = (data.length - pos - 1) + 1 by omega]
  simp only [decode_loop_go, if_pos h, hf]

/-- Unfolding `decode_loop` when the scan finds a packet. -/
theorem decode_loop_some (data : List Nat) (pos np : Nat) (pkt : GlovePacket)
    (chs : Channels) (h : pos < data.length)
    (hf : find_next_packet data pos = (np, some pkt)) :
    decode_loop data pos chs = decode_loop data np
      (if pkt.packet_type = ECG_PACKET_TYPE ∧ pkt.checksum_valid = true then
        (decode_ecg_packet pkt.payload chs).2
      else chs) := by
  have hge := find_next_packet_some_ge data pos (by rw [hf]; rfl)
  rw [hf] at hge
  simp only [HEADER_SIZE] at hge
  unfold decode_loop
  rw [show data.length - pos = (data.length - pos - 1) + 1 by omega]
  simp only [decode_loop_go, if_pos h, hf]
  exact decode_loop_go_irrel _ _ data np _ (by omega) (by omega)

/-- Unfolding `decode_loop` past the end of the buffer. -/
theorem decode_loop_exit (data : List Nat) (pos : Nat) (chs : Channels)
    (h : ¬ pos < data.length) : decode_loop data pos chs = chs := by
  unfold decode_loop
  rw [show data.length - pos = 0 by omega]
  rfl

/-- Unfolding `acceptedPayloads` when the scan finds no further packet. -/
theorem acceptedPayloads_none (data : List Nat) (pos np : Nat)
    (h : pos < data.length) (hf : find_next_packet data pos = (np, none)) :
    acceptedPayloads data pos = [] := by
  unfold acceptedPayloads
  rw [show data.length - pos = (data.length - pos - 1) + 1 by omega]
  simp only [acceptedPayloads_go, if_pos h, hf]

/-- Unfolding `acceptedPayloads` when the scan finds a packet. -/
theorem acceptedPayloads_some (data : List Nat) (pos np : Nat) (pkt : GlovePacket)
    (h : pos < data.length)
    (hf : find_next_packet data pos = (np, some pkt)) :
    acceptedPayloads data pos =
      (if pkt.packet_type = ECG_PACKET_TYPE ∧ pkt.checksum_valid = true then
        [pkt.payload]
      else []) ++ acceptedPayloads data np := by
  have hge := find_next_packet_some_ge data pos (by rw [hf]; rfl)
  rw [hf] at hge
  simp only [HEADER_SIZE] at hge
  unfold acceptedPayloads
  rw [show data.length - pos = (data.length - pos - 1) + 1 by omega]
  simp only [acceptedPayloads_go, if_pos h, hf]
  rw [acceptedPayloads_go_irrel (data.length - pos - 1) (data.length - np) data np
    (by omega) (by omega)]

/-- Unfolding `acceptedPayloads` past the end of the buffer. -/
theorem acceptedPayloads_exit (data : List Nat) (pos : Nat)
    (h : ¬ pos < data.length) : acceptedPayloads data pos = [] := by
  unfold acceptedPayloads
  rw [show data.length - pos = 0 by omega]
  rfl

/-- A packet returned by `_find_next_packet` records the actual checksum
verdict of its payload, and an ECG packet carries a full 81-byte payload. -/
theorem find_next_packet_some_spec (data : List Nat) (i np : Nat) (pkt : GlovePacket)
    (h : find_next_packet data i = (np, some pkt)) :
    pkt.checksum_valid = verify_checksum pkt.payload ∧
      (pkt.packet_type = ECG_PACKET_TYPE → pkt.payload.length = ECG_PAYLOAD_SIZE) := by
  generalize hk : data.length - i = k
  induction k using Nat.strong_induction_on generalizing i with
  | _ k ih =>
    rw [find_next_packet_unfold] at h
    split at h
    case isFalse => simp at h
    case isTrue hlt =>
      split at h
      case isTrue hsync =>
        exact ih (data.length - (i + 1)) (by omega) (i + 1) h rfl
      case isFalse hsync =>
        split at h
        case isTrue hshort => simp at h
        case isFalse hshort =>
          split at h
          case h_1 heq =>
            exact ih (data.length - (i + 1)) (by omega) (i + 1) h rfl
          case h_2 pt heq =>
            generalize hps : (if pt = ECG_PACKET_TYPE then ECG_PAYLOAD_SIZE
              else if pt = FAULT_PACKET_TYPE then FAULT_PAYLOAD_SIZE else 0) = ps at h
            dsimp only at h
            split at h
            · simp at h
            · rename_i hpe
              obtain ⟨h1, h2⟩ := Prod.mk.injEq .. ▸ h
              cases Option.some.injEq .. ▸ h2
              refine ⟨rfl, fun hc => ?_⟩
              have hc' : pt = ECG_PACKET_TYPE := hc
              rw [if_pos hc'] at hps
              dsimp only
              simp only [List.length_take, List.length_drop]
              simp only [not_lt, HEADER_SIZE, ECG_PAYLOAD_SIZE] at hpe hps ⊢
              omega

/-- The decode loop appends to each channel exactly the samples of the
payloads it accepts, in order. -/
theorem decode_loop_eq (data : List Nat) (pos : Nat) (chs : Channels) (ch : Fin 8) :
    decode_loop data pos chs ch =
      chs ch ++ concatMapSamples ch (acceptedPayloads data pos) := by
  generalize hk : data.length - pos = k
  induction k using Nat.strong_induction_on generalizing pos chs with
  | _ k ih =>
    by_cases hlt : pos < data.length
    · rcases hf : find_next_packet data pos with ⟨np, opkt⟩
      cases opkt with
      | none =>
        rw [decode_loop_none data pos np chs hlt hf,
          acceptedPayloads_none data pos np hlt hf]
        simp [concatMapSamples]
      | some pkt =>
        have hge := find_next_packet_some_ge data pos (by rw [hf]; rfl)
        rw [hf] at hge
        simp only [HEADER_SIZE] at hge
        rw [decode_loop_some data pos np pkt chs hlt hf,
          acceptedPayloads_some data pos np pkt hlt hf,
          ih (data.length - np) (by omega) np _ rfl]
        by_cases hacc : pkt.packet_type = ECG_PACKET_TYPE ∧ pkt.checksum_valid = true
        · rw [if_pos hacc, if_pos hacc, decode_ecg_packet_snd]
          have hv : verify_checksum pkt.payload = true := by
            have := find_next_packet_some_spec data pos np pkt hf
            rw [← this.1]; exact hacc.2
          rw [if_pos hv]
          simp [concatMapSamples, List.append_assoc]
        · rw [if_neg hacc, if_neg hacc]
          simp [concatMapSamples]
    · rw [decode_loop_exit data pos chs hlt, acceptedPayloads_exit data pos hlt]
      simp [concatMapSamples]

/-- Every payload the loop accepts is a full 81-byte ECG payload with a
passing checksum. -/
theorem acceptedPayloads_mem (data : List Nat) (pos : Nat) (p : List Nat)
    (hp : p ∈ acceptedPayloads data pos) :
    p.length = ECG_PAYLOAD_SIZE ∧ verify_checksum p = true := by
  generalize hk : data.length - pos = k
  induction k using Nat.strong_induction_on generalizing pos with
  | _ k ih =>
    by_cases hlt : pos < data.length
    · rcases hf : find_next_packet data pos with ⟨np, opkt⟩
      cases opkt with
      | none =>
        rw [acceptedPayloads_none data pos np hlt hf] at hp
        simp at hp
      | some pkt =>
        have hge := find_next_packet_some_ge data pos (by rw [hf]; rfl)
        rw [hf] at hge
        simp only [HEADER_SIZE] at hge
        rw [acceptedPayloads_some data pos np pkt hlt hf] at hp
        rw [List.mem_append] at hp
        rcases hp with hp | hp
        · by_cases hacc : pkt.packet_type = ECG_PACKET_TYPE ∧ pkt.checksum_valid = true
          · rw [if_pos hacc] at hp
            simp only [List.mem_singleton] at hp
            subst hp
            have hspec := find_next_packet_some_spec data pos np pkt hf
            exact ⟨hspec.2 hacc.1, hspec.1 ▸ hacc.2⟩
          · rw [if_neg hacc] at hp
            simp at hp
        · exact ih (data.length - np) (by omega) np hp rfl
    · rw [acceptedPayloads_exit data pos hlt] at hp
      simp at hp

/-- The channel state of a fresh `decode` call is exactly the
concatenation of the accepted payloads' samples. -/
theorem run_decode_eq (data : List Nat) (ch : Fin 8) :
    run_decode data ch = concatMapSamples ch (acceptedPayloads data 0) := by
  unfold run_decode
  rw [decode_loop_eq]
  simp [emptyChannels]

/-- An 81-byte payload contributes exactly 5 samples per channel. -/
theorem packetSamples_length (p : List Nat) (hp : p.length = ECG_PAYLOAD_SIZE)
    (ch : Fin 8) : (packetSamples p ch).length = 5 := by
  unfold packetSamples
  rw [decode_frames_eq_framesList, List.drop_zero, framesList_length]
  simp only [emptyChannels, List.length_nil, List.length_dropLast, hp]
  rfl

/-- Length of the concatenated samples of accepted payloads. -/
theorem concatMapSamples_length (ch : Fin 8) (L : List (List Nat))
    (hL : ∀ p ∈ L, p.length = ECG_PAYLOAD_SIZE) :
    (concatMapSamples ch L).length = 5 * L.length := by
  induction L with
  | nil => simp [concatMapSamples]
  | cons p t iht =>
    rw [concatMapSamples]
    simp only [List.length_append, List.length_cons]
    rw [packetSamples_length p (hL p (List.mem_cons_self p t)) ch,
      iht (fun q hq => hL q (List.mem_cons_of_mem p hq))]
    ring

/-- Every channel accumulator of a fresh decode has length
`5 * (number of accepted payloads)`. -/
theorem run_decode_length (data : List Nat) (ch : Fin 8) :
    (run_decode data ch).length = 5 * (acceptedPayloads data 0).length := by
  rw [run_decode_eq]
  exact concatMapSamples_length ch _ (fun p hp => (acceptedPayloads_mem data 0 p hp).1)

/-- `decode` raises exactly when every channel is empty. -/
theorem decode_none_iff_empty (data : List Nat) :
    decode data = none ↔ ∀ ch : Fin 8, run_decode data ch = [] := by
  unfold decode
  by_cases hc : ∀ ch : Fin 8, run_decode data ch = []
  · simp [hc]
  · simp [hc]

/-- `decode` raises exactly when the loop accepted no valid ECG payload. -/
theorem decode_none_iff_no_accepted (data : List Nat) :
    decode data = none ↔ acceptedPayloads data 0 = [] := by
  rw [decode_none_iff_empty]
  constructor
  · intro h
    have h0 := h 0
    rw [run_decode_eq] at h0
    cases hL : acceptedPayloads data 0 with
    | nil => rfl
    | cons p t =>
      exfalso
      rw [hL, concatMapSamples] at h0
      have h5 := packetSamples_length p
        ((acceptedPayloads_mem data 0 p (hL ▸ List.mem_cons_self p t)).1) 0
      rw [List.append_eq_nil] at h0
      rw [h0.1] at h5
      simp at h5
  · intro h ch
    rw [run_decode_eq, h]
    rfl

theorem payloadData_length (p : PacketSamples) : (payloadData p).length = 80 := rfl

theorem encodePacket_length (p : PacketSamples) : (encodePacket p).length = 88 := by
  simp [encodePacket, headerBytes, List.length_append, payloadData_length]

/-- Appending its checksum byte makes any byte list pass the checksum. -/
theorem verify_checksum_concat (l : List Nat) :
    verify_checksum (l ++ [checksumByte l]) = true := by
  simp only [verify_checksum, checksumByte, List.sum_append, List.sum_cons,
    List.sum_nil, beq_iff_eq]
  omega

/-- The well-formed header decodes to the ECG subtype. -/
theorem decode_header_headerBytes :
    decode_header headerBytes = some ECG_PACKET_TYPE := by decide

/-- The little-endian bytes of a frame reassemble to the unsigned encoding. -/
theorem frameValue_frameBytes (p : PacketSamples) (f : Fin 5) (ch : Fin 8) :
    frameValue (frameBytes p f) ch = encodeU (p f ch) := by
  have key : ∀ v : Int, hiByte v * 256 + loByte v % 256 = encodeU v := by
    intro v
    unfold hiByte loByte
    omega
  fin_cases ch <;> exact key _

/-- Two's-complement round trip for in-range samples. -/
theorem toInt16_encodeU (v : Int) (h1 : -32768 ≤ v) (h2 : v ≤ 32767) :
    toInt16 (encodeU v) = v := by
  by_cases hv : v < 0
  · simp only [encodeU, if_pos hv, toInt16]
    rw [if_pos (by omega : (v + 65536).toNat > 32767)]
    omega
  · simp only [encodeU, if_neg hv, toInt16]
    rw [if_neg (by omega : ¬ v.toNat > 32767)]
    omega

/-- Decoding an encoded frame appends exactly the frame's samples. -/
theorem decode_ecg_frame_frameBytes (p : PacketSamples) (f : Fin 5)
    (hr : ∀ ch, -32768 ≤ p f ch ∧ p f ch ≤ 32767) (chs : Channels) :
    decode_ecg_frame (frameBytes p f) chs = fun ch => chs ch ++ [p f ch] := by
  funext ch
  unfold decode_ecg_frame
  rw [frameValue_frameBytes, toInt16_encodeU _ (hr ch).1 (hr ch).2]

theorem framesList_nil (chs : Channels) : framesList [] chs = chs := rfl

/-- A complete leading 16-byte chunk is consumed as one frame. -/
theorem framesList_cons_frame (A B : List Nat) (hA : A.length = 16)
    (chs : Channels) :
    framesList (A ++ B) chs = framesList B (decode_ecg_frame A chs) := by
  rw [framesList_unfold]
  have h16 : 16 ≤ (A ++ B).length := by
    rw [List.length_append, hA]
    omega
  have ht : (A ++ B).take 16 = A := by rw [← hA]; exact List.take_left A B
  have hd : (A ++ B).drop 16 = B := by rw [← hA]; exact List.drop_left A B
  rw [if_pos h16, ht, hd]

/-- The chunk loop on an encoded 80-byte payload appends the packet's
samples, channel by channel, in frame order. -/
theorem framesList_payloadData (p : PacketSamples)
    (hr : ∀ f ch, -32768 ≤ p f ch ∧ p f ch ≤ 32767) (chs : Channels) :
    framesList (payloadData p) chs = fun ch => chs ch ++ packetChannelSamples p ch := by
  have hassoc : payloadData p = frameBytes p 0 ++ (frameBytes p 1 ++
      (frameBytes p 2 ++ (frameBytes p 3 ++ frameBytes p 4))) := by
    simp [payloadData, List.append_assoc]
  rw [hassoc, framesList_cons_frame (frameBytes p 0) _ rfl,
    framesList_cons_frame (frameBytes p 1) _ rfl,
    framesList_cons_frame (frameBytes p 2) _ rfl,
    framesList_cons_frame (frameBytes p 3) _ rfl,
    show frameBytes p 4 = frameBytes p 4 ++ [] by simp,
    framesList_cons_frame (frameBytes p 4) [] rfl, framesList_nil,
    decode_ecg_frame_frameBytes p 0 (hr 0), decode_ecg_frame_frameBytes p 1 (hr 1),
    decode_ecg_frame_frameBytes p 2 (hr 2), decode_ecg_frame_frameBytes p 3 (hr 3),
    decode_ecg_frame_frameBytes p 4 (hr 4)]
  funext ch
  simp [packetChannelSamples]

/-- Scanning an encoded packet finds it immediately at offset 0. -/
theorem find_next_packet_encodePacket (p : PacketSamples) (rest : List Nat) :
    find_next_packet (encodePacket p ++ rest) 0 =
      (88, some ⟨ECG_PACKET_TYPE, payloadData p ++ [checksumByte (payloadData p)],
        true⟩) := by
  have hlen : (encodePacket p ++ rest).length = 88 + rest.length := by
    rw [List.length_append, encodePacket_length]
  have hassoc : encodePacket p ++ rest =
      headerBytes ++ ((payloadData p ++ [checksumByte (payloadData p)]) ++ rest) := by
    simp [encodePacket, List.append_assoc]
  rw [find_next_packet_unfold]
  rw [if_pos (by omega : 0 < (encodePacket p ++ rest).length)]
  have hsync : (encodePacket p ++ rest).getD 0 0 = SYNC_BYTE := by
    rw [hassoc]; rfl
  rw [if_neg (by rw [hsync]; simp)]
  rw [if_neg (by rw [hlen]; simp only [HEADER_SIZE]; omega :
    ¬ (encodePacket p ++ rest).length < 0 + HEADER_SIZE)]
  have hhdr : ((encodePacket p ++ rest).drop 0).take HEADER_SIZE = headerBytes := by
    rw [List.drop_zero, hassoc, show HEADER_SIZE = headerBytes.length from rfl,
      List.take_left]
  rw [hhdr, decode_header_headerBytes]
  dsimp only
  rw [if_pos rfl]
  have hp81 : (payloadData p ++ [checksumByte (payloadData p)]).length =
      ECG_PAYLOAD_SIZE := by
    rw [List.length_append, payloadData_length]
    rfl
  rw [if_neg (by
    simp only [HEADER_SIZE, ECG_PAYLOAD_SIZE] at *
    omega)]
  have hpay : ((encodePacket p ++ rest).drop (0 + HEADER_SIZE)).take ECG_PAYLOAD_SIZE
      = payloadData p ++ [checksumByte (payloadData p)] := by
    rw [hassoc, show 0 + HEADER_SIZE = headerBytes.length from rfl, List.drop_left,
      ← hp81, List.take_left]
  rw [hpay, verify_checksum_concat]
  rfl

/-- The scan is translation invariant: scanning `xs ++ ys` from the start
of `ys` behaves like scanning `ys` alone, with positions shifted. -/
theorem find_next_packet_shift (xs ys : List Nat) (i : Nat) :
    find_next_packet (xs ++ ys) (xs.length + i) =
      ((find_next_packet ys i).1 + xs.length, (find_next_packet ys i).2) := by
  generalize hk : ys.length - i = k
  induction k using Nat.strong_induction_on generalizing i with
  | _ k ih =>
    have hlen := List.length_append xs ys
    rw [find_next_packet_unfold]
    conv_rhs => rw [find_next_packet_unfold]
    by_cases hi : i < ys.length
    · rw [if_pos (by omega : xs.length + i < (xs ++ ys).length), if_pos hi]
      have hgd : (xs ++ ys).getD (xs.length + i) 0 = ys.getD i 0 := by
        rw [List.getD_append_right xs ys 0 (xs.length + i) (Nat.le_add_right _ _),
          Nat.add_sub_cancel_left]
      rw [hgd]
      by_cases hsync : ys.getD i 0 ≠ SYNC_BYTE
      · rw [if_pos hsync, if_pos hsync,
          show xs.length + i + 1 = xs.length + (i + 1) by omega]
        exact ih (ys.length - (i + 1)) (by omega) (i + 1) rfl
      · rw [if_neg hsync, if_neg hsync]
        have hdrop : (xs ++ ys).drop (xs.length + i) = ys.drop i := List.drop_append i
        by_cases hshort : ys.length < i + HEADER_SIZE
        · rw [if_pos (by omega : (xs ++ ys).length < xs.length + i + HEADER_SIZE),
            if_pos hshort]
          simp [Nat.add_comm]
        · rw [if_neg (by omega : ¬ (xs ++ ys).length < xs.length + i + HEADER_SIZE),
            if_neg hshort, hdrop]
          cases hdh : decode_header ((ys.drop i).take HEADER_SIZE) with
          | none =>
            simp only [hdh]
            rw [show xs.length + i + 1 = xs.length + (i + 1) by omega]
            exact ih (ys.length - (i + 1)) (by omega) (i + 1) rfl
          | some pt =>
            simp only [hdh]
            generalize (if pt = ECG_PACKET_TYPE then ECG_PAYLOAD_SIZE
              else if pt = FAULT_PACKET_TYPE then FAULT_PAYLOAD_SIZE else 0) = ps
            by_cases hpe : ys.length < i + HEADER_SIZE + ps
            · rw [if_pos (by omega :
                  (xs ++ ys).length < xs.length + i + HEADER_SIZE + ps),
                if_pos hpe]
              simp [Nat.add_comm]
            · rw [if_neg (by omega :
                  ¬ (xs ++ ys).length < xs.length + i + HEADER_SIZE + ps),
                if_neg hpe,
                show xs.length + i + HEADER_SIZE = xs.length + (i + HEADER_SIZE) by
                  omega,
                List.drop_append (i + HEADER_SIZE)]
              simp only [Prod.mk.injEq]
              exact ⟨by omega, by trivial⟩
    · rw [if_neg (by omega : ¬ xs.length + i < (xs ++ ys).length), if_neg hi]
      simp [Nat.add_comm]

/-- The decode loop is translation invariant in the same sense. -/
theorem decode_loop_shift (xs ys : List Nat) (i : Nat) (chs : Channels) :
    decode_loop (xs ++ ys) (xs.length + i) chs = decode_loop ys i chs := by
  generalize hk : ys.length - i = k
  induction k using Nat.strong_induction_on generalizing i chs with
  | _ k ih =>
    have hlen := List.length_append xs ys
    by_cases hi : i < ys.length
    · rcases hf : find_next_packet ys i with ⟨np, opkt⟩
      have hfs : find_next_packet (xs ++ ys) (xs.length + i) = (np + xs.length, opkt) := by
        rw [find_next_packet_shift, hf]
      cases opkt with
      | none =>
        rw [decode_loop_none _ _ _ _ (by omega) hfs, decode_loop_none _ _ _ _ hi hf]
      | some pkt =>
        have hge := find_next_packet_some_ge ys i (by rw [hf]; rfl)
        rw [hf] at hge
        simp only [HEADER_SIZE] at hge
        rw [decode_loop_some _ _ _ _ _ (by omega) hfs, decode_loop_some _ _ _ _ _ hi hf,
          show np + xs.length = xs.length + np by omega]
        exact ih (ys.length - np) (by omega) np _ rfl
    · rw [decode_loop_exit _ _ _ (by omega), decode_loop_exit _ _ _ hi]

/-- Decoding one well-formed packet followed by anything appends its
samples and continues with the remainder. -/
theorem decode_loop_packet (p : PacketSamples)
    (hr : ∀ f ch, -32768 ≤ p f ch ∧ p f ch ≤ 32767) (rest : List Nat)
    (chs : Channels) :
    decode_loop (encodePacket p ++ rest) 0 chs =
      decode_loop rest 0 (fun ch => chs ch ++ packetChannelSamples p ch) := by
  have hf := find_next_packet_encodePacket p rest
  have hlen : (encodePacket p ++ rest).length = 88 + rest.length := by
    rw [List.length_append, encodePacket_length]
  rw [decode_loop_some _ 0 88 _ chs (by omega) hf]
  have hchs : (if ECG_PACKET_TYPE = ECG_PACKET_TYPE ∧ (true : Bool) = true then
      (decode_ecg_packet (payloadData p ++ [checksumByte (payloadData p)]) chs).2
    else chs) = fun ch => chs ch ++ packetChannelSamples p ch := by
    rw [if_pos ⟨rfl, rfl⟩]
    unfold decode_ecg_packet
    rw [if_pos (verify_checksum_concat _)]
    show decode_frames (payloadData p ++ [checksumByte (payloadData p)]).dropLast 0 chs
      = _
    rw [List.dropLast_concat, decode_frames_eq_framesList, List.drop_zero,
      framesList_payloadData p hr chs]
  rw [hchs, show (88 : Nat) = (encodePacket p).length + 0 by
    rw [encodePacket_length], decode_loop_shift]

/-- Decoding a concatenation of well-formed packets accumulates exactly
their per-channel samples, in order. -/
theorem decode_loop_encodePackets (ps : List PacketSamples) (hr : InRange ps)
    (chs : Channels) :
    decode_loop (encodePackets ps) 0 chs = fun ch => chs ch ++ samplesOf ps ch := by
  induction ps generalizing chs with
  | nil =>
    funext ch
    rw [show encodePackets [] = [] from rfl,
      decode_loop_exit _ _ _ (by simp), samplesOf]
    simp
  | cons p t iht =>
    rw [show encodePackets (p :: t) = encodePacket p ++ encodePackets t from rfl,
      decode_loop_packet p (hr p (List.mem_cons_self p t)) _ chs,
      iht (fun q hq f ch => hr q (List.mem_cons_of_mem p hq) f ch)]
    funext ch
    rw [samplesOf]
    simp [List.append_assoc]

/-- Byte-at-a-time resynchronization: positions at which no valid header
starts are skipped one by one without any other effect. -/
theorem find_next_packet_skip (data : List Nat) (e : Nat)
    (hlen : e + HEADER_SIZE ≤ data.length) :
    ∀ k s, e - s = k → s ≤ e →
      (∀ j, s ≤ j → j < e →
        decode_header ((data.drop j).take HEADER_SIZE) = none) →
      find_next_packet data s = find_next_packet data e := by
  intro k
  induction k using Nat.strong_induction_on with
  | _ k ih =>
    intro s hk hse hnone
    by_cases heq : s = e
    · rw [heq]
    · have hslt : s < e := by omega
      have hs7 : s + HEADER_SIZE ≤ data.length := by omega
      rw [find_next_packet_unfold]
      rw [if_pos (by omega : s < data.length)]
      by_cases hsync : data.getD s 0 ≠ SYNC_BYTE
      · rw [if_pos hsync]
        exact ih (e - (s + 1)) (by omega) (s + 1) rfl (by omega)
          (fun j hj1 hj2 => hnone j (by omega) hj2)
      · rw [if_neg hsync, if_neg (by omega : ¬ data.length < s + HEADER_SIZE),
          hnone s (le_refl s) hslt]
        exact ih (e - (s + 1)) (by omega) (s + 1) rfl (by omega)
          (fun j hj1 hj2 => hnone j (by omega) hj2)

/-- Decoding an encoded payload (with its checksum byte) appends exactly
the packet's samples. -/
theorem decode_ecg_packet_encoded (p : PacketSamples)
    (hr : ∀ f ch, -32768 ≤ p f ch ∧ p f ch ≤ 32767) (chs : Channels) :
    (decode_ecg_packet (payloadData p ++ [checksumByte (payloadData p)]) chs).2 =
      fun ch => chs ch ++ packetChannelSamples p ch := by
  unfold decode_ecg_packet
  rw [if_pos (verify_checksum_concat _)]
  show decode_frames (payloadData p ++ [checksumByte (payloadData p)]).dropLast 0 chs
    = _
  rw [List.dropLast_concat, decode_frames_eq_framesList, List.drop_zero,
    framesList_payloadData p hr chs]

/-- Two well-formed packets separated by garbage in which no valid header
starts decode to exactly the two packets' samples, in order. -/
theorem decode_two_packets_garbage (p1 p2 : PacketSamples)
    (hr1 : ∀ f ch, -32768 ≤ p1 f ch ∧ p1 f ch ≤ 32767)
    (hr2 : ∀ f ch, -32768 ≤ p2 f ch ∧ p2 f ch ≤ 32767)
    (G : List Nat)
    (hG : ∀ j, j < G.length →
      decode_header (((G ++ encodePacket p2).drop j).take HEADER_SIZE) = none)
    (ch : Fin 8) :
    run_decode (encodePacket p1 ++ (G ++ encodePacket p2)) ch =
      packetChannelSamples p1 ch ++ packetChannelSamples p2 ch := by
  have hlenG : (G ++ encodePacket p2).length = G.length + 88 := by
    rw [List.length_append, encodePacket_length]
  have hf2 : find_next_packet (encodePacket p2) 0 =
      (88, some ⟨ECG_PACKET_TYPE, payloadData p2 ++ [checksumByte (payloadData p2)],
        true⟩) := by
    have h := find_next_packet_encodePacket p2 []
    rwa [List.append_nil] at h
  have hshift : find_next_packet (G ++ encodePacket p2) G.length =
      (88 + G.length, some ⟨ECG_PACKET_TYPE,
        payloadData p2 ++ [checksumByte (payloadData p2)], true⟩) := by
    have h := find_next_packet_shift G (encodePacket p2) 0
    rw [hf2] at h
    rwa [Nat.add_zero] at h
  have hf0 : find_next_packet (G ++ encodePacket p2) 0 =
      (88 + G.length, some ⟨ECG_PACKET_TYPE,
        payloadData p2 ++ [checksumByte (payloadData p2)], true⟩) := by
    rw [find_next_packet_skip (G ++ encodePacket p2) G.length
      (by simp only [HEADER_SIZE]; omega) G.length 0 (by omega) (by omega)
      (fun j _ hj2 => hG j hj2), hshift]
  unfold run_decode
  rw [decode_loop_packet p1 hr1]
  rw [decode_loop_some _ 0 (88 + G.length) _ _ (by omega) hf0]
  rw [show (if (⟨ECG_PACKET_TYPE,
      payloadData p2 ++ [checksumByte (payloadData p2)], true⟩ :
        GlovePacket).packet_type = ECG_PACKET_TYPE ∧
      (⟨ECG_PACKET_TYPE, payloadData p2 ++ [checksumByte (payloadData p2)], true⟩ :
        GlovePacket).checksum_valid = true then
      (decode_ecg_packet (⟨ECG_PACKET_TYPE,
        payloadData p2 ++ [checksumByte (payloadData p2)], true⟩ :
          GlovePacket).payload
        (fun ch => emptyChannels ch ++ packetChannelSamples p1 ch)).2
    else fun ch => emptyChannels ch ++ packetChannelSamples p1 ch) =
      (decode_ecg_packet (payloadData p2 ++ [checksumByte (payloadData p2)])
        (fun ch => emptyChannels ch ++ packetChannelSamples p1 ch)).2 from
    if_pos ⟨rfl, rfl⟩]
  rw [decode_ecg_packet_encoded p2 hr2,
    decode_loop_exit _ _ _ (by omega)]
  simp [emptyChannels]

/-! ## Lead construction lemmas -/

theorem channelsQ_length (c : Channels) (ch : Fin 8) :
    (channelsQ c ch).length = (c ch).length := by
  unfold channelsQ
  rw [List.length_map]

/-- After a fresh decode all channels have the same length, so the
minimum lead length is that common length. -/
theorem minLeadLength_run (data : List Nat) :
    minLeadLength (channelsQ (run_decode data)) =
      5 * (acceptedPayloads data 0).length := by
  unfold minLeadLength
  simp only [channelsQ_length, run_decode_length]
  omega

/-- The minimum-length truncation of a fresh decode discards nothing. -/
theorem truncatedLeads_run (data : List Nat) (ch : Fin 8) :
    truncatedLeads (run_decode data) ch = channelsQ (run_decode data) ch := by
  unfold truncatedLeads
  rw [minLeadLength_run,
    show 5 * (acceptedPayloads data 0).length =
      (channelsQ (run_decode data) ch).length by
        rw [channelsQ_length, run_decode_length],
    List.take_length]

/-- Lead I of the built mapping is always the truncated channel 0. -/
theorem buildLeads_leadI (c : Channels) :
    (buildLeads c).leadI = truncatedLeads c 0 := by
  unfold buildLeads
  dsimp only
  split <;> rfl

/-- Lead II of the built mapping is always the truncated channel 1. -/
theorem buildLeads_leadII (c : Channels) :
    (buildLeads c).leadII = truncatedLeads c 1 := by
  unfold buildLeads
  dsimp only
  split <;> rfl

/-- A successful `decode` returns exactly the built lead mapping. -/
theorem decode_some_build (data : List Nat) (m : LeadMap)
    (h : decode data = some m) : m = buildLeads (run_decode data) := by
  unfold decode at h
  split at h
  · simp at h
  · exact (Option.some.inj h).symm

/-- A successful `decode` has at least one accepted payload. -/
theorem decode_some_nonempty (data : List Nat) (m : LeadMap)
    (h : decode data = some m) : acceptedPayloads data 0 ≠ [] := by
  intro hnil
  have hn := (decode_none_iff_no_accepted data).2 hnil
  rw [hn] at h
  exact Option.noConfusion h

/-! ## Claim theorems for the decoder -/

/-- C1. `decode` fails (raises `ValueError`, the spec's `DecodeError`)
exactly when the scan recovered zero valid ECG payloads from the entire
input, and on any other input it returns normally with every channel
holding exactly the concatenated samples of the recovered payloads — all
samples decoded before any corruption or truncation are preserved. -/
theorem decode_error_iff_no_valid_payload (data : List Nat) :
    (decode data = none ↔ acceptedPayloads data 0 = []) ∧
    (∀ ch : Fin 8,
      run_decode data ch = concatMapSamples ch (acceptedPayloads data 0)) :=
  ⟨decode_none_iff_no_accepted data, run_decode_eq data⟩

/-- C2.  Round trip: encoding any finite per-channel sample sequences
(as whole packets of 5 frames × 8 channels of signed 16-bit values) into
well-formed packets and decoding the concatenation reproduces exactly
those per-channel values, in order. -/
theorem encode_decode_round_trip (ps : List PacketSamples) (hr : InRange ps)
    (ch : Fin 8) :
    run_decode (encodePackets ps) ch = samplesOf ps ch := by
  unfold run_decode
  rw [decode_loop_encodePackets ps hr]
  simp [emptyChannels]

/-- Witness for C2 at a concrete two-packet sequence. -/
theorem encode_decode_round_trip_witness :
    InRange [mixedPacket, onesPacket] ∧
    ∀ ch : Fin 8, run_decode (encodePackets [mixedPacket, onesPacket]) ch =
      samplesOf [mixedPacket, onesPacket] ch :=
  ⟨by decide, fun ch =>
    encode_decode_round_trip [mixedPacket, onesPacket] (by decide) ch⟩

/-- C3 as stated is false: garbage between two valid packets that itself
contains a byte sequence passing the header check can swallow the second
packet.  Here the garbage is a spurious well-formed ECG header, and the
decoded channel 0 is not the two packets' samples (a bogus sample 6016
appears and the second packet's samples are lost). -/
theorem garbage_between_packets_counterexample :
    run_decode (encodePacket zeroPacket ++ (headerBytes ++ encodePacket zeroPacket)) 0
      ≠ packetChannelSamples zeroPacket 0 ++ packetChannelSamples zeroPacket 0 := by
  decide

/-- C3 amended: inserting garbage bytes (spurious `0x80` bytes included)
between two valid packets drops and duplicates no samples, provided no
7-byte window starting inside the garbage passes the header check. -/
theorem garbage_between_packets_resync (p1 p2 : PacketSamples)
    (hr1 : ∀ f ch, -32768 ≤ p1 f ch ∧ p1 f ch ≤ 32767)
    (hr2 : ∀ f ch, -32768 ≤ p2 f ch ∧ p2 f ch ≤ 32767)
    (G : List Nat)
    (hG : ∀ j, j < G.length →
      decode_header (((G ++ encodePacket p2).drop j).take HEADER_SIZE) = none)
    (ch : Fin 8) :
    run_decode (encodePacket p1 ++ (G ++ encodePacket p2)) ch =
      packetChannelSamples p1 ch ++ packetChannelSamples p2 ch :=
  decode_two_packets_garbage p1 p2 hr1 hr2 G hG ch

/-- Witness for the amended C3: garbage `[0x80, 0x99, 0x80]` with two
spurious sync bytes between two concrete packets. -/
theorem garbage_between_packets_resync_witness :
    (∀ f ch, -32768 ≤ mixedPacket f ch ∧ mixedPacket f ch ≤ 32767) ∧
    (∀ f ch, -32768 ≤ twosPacket f ch ∧ twosPacket f ch ≤ 32767) ∧
    (∀ j, j < ([0x80, 0x99, 0x80] : List Nat).length →
      decode_header (((([0x80, 0x99, 0x80] : List Nat) ++
        encodePacket twosPacket).drop j).take HEADER_SIZE) = none) ∧
    ∀ ch : Fin 8,
      run_decode (encodePacket mixedPacket ++
        (([0x80, 0x99, 0x80] : List Nat) ++ encodePacket twosPacket)) ch =
        packetChannelSamples mixedPacket ch ++ packetChannelSamples twosPacket ch :=
  ⟨by decide, by decide, by decide, fun ch =>
    garbage_between_packets_resync mixedPacket twosPacket (by decide) (by decide)
      [0x80, 0x99, 0x80] (by decide) ch⟩

/-- C4 as stated is false: the accumulators do not persist across calls.
After decoding one chunk and then a second on the same instance, channel
0 holds only the second chunk's samples, not the whole stream's. -/
theorem chunked_decode_counterexample :
    (decode_method (decode_method emptyChannels (encodePacket onesPacket)).1
      (encodePacket twosPacket)).1 0 ≠
    run_decode (encodePacket onesPacket ++ encodePacket twosPacket) 0 := by
  decide

/-- C4 amended: each call to `decode` is independent — it resets the
per-channel accumulators and restarts the scan at offset 0, so its result
is the same whatever state earlier calls left behind, and equals decoding
the given chunk alone. -/
theorem decode_call_independent (s s' : Channels) (data : List Nat) :
    decode_method s data = decode_method s' data ∧
    (decode_method s data).1 = run_decode data :=
  ⟨rfl, rfl⟩

/-- C5. Whenever both (truncated) limb leads are non-empty, the returned
mapping passes the eight acquired channels through truncated to the
minimum common length and contains the four derived leads computed
element-wise: `III = II - I`, `aVR = -(I+II)/2`, `aVL = I - II/2`,
`aVF = II - I/2`. -/
theorem derived_leads_formulas (data : List Nat) (m : LeadMap)
    (hm : decode data = some m) (hI : m.leadI ≠ []) (hII : m.leadII ≠ []) :
    m.leadI = truncatedLeads (run_decode data) 0 ∧
    m.leadII = truncatedLeads (run_decode data) 1 ∧
    m.v1 = truncatedLeads (run_decode data) 2 ∧
    m.v2 = truncatedLeads (run_decode data) 3 ∧
    m.v3 = truncatedLeads (run_decode data) 4 ∧
    m.v4 = truncatedLeads (run_decode data) 5 ∧
    m.v5 = truncatedLeads (run_decode data) 6 ∧
    m.v6 = truncatedLeads (run_decode data) 7 ∧
    m.leadIII = some (List.zipWith (fun a b => a - b)
      (truncatedLeads (run_decode data) 1) (truncatedLeads (run_decode data) 0)) ∧
    m.aVR = some (List.zipWith (fun a b => -(a + b) / 2)
      (truncatedLeads (run_decode data) 0) (truncatedLeads (run_decode data) 1)) ∧
    m.aVL = some (List.zipWith (fun a b => a - b / 2)
      (truncatedLeads (run_decode data) 0) (truncatedLeads (run_decode data) 1)) ∧
    m.aVF = some (List.zipWith (fun a b => a - b / 2)
      (truncatedLeads (run_decode data) 1) (truncatedLeads (run_decode data) 0)) := by
  have hb := decode_some_build data m hm
  unfold buildLeads at hb
  by_cases hc : 0 < (truncatedLeads (run_decode data) 0).length ∧
      0 < (truncatedLeads (run_decode data) 1).length
  · rw [if_pos hc] at hb
    subst hb
    exact ⟨rfl, rfl, rfl, rfl, rfl, rfl, rfl, rfl, rfl, rfl, rfl, rfl⟩
  · rw [if_neg hc] at hb
    exfalso
    rw [not_and_or] at hc
    rcases hc with hc | hc
    · apply hI
      rw [hb]
      show truncatedLeads (run_decode data) 0 = []
      exact List.eq_nil_of_length_eq_zero (by omega)
    · apply hII
      rw [hb]
      show truncatedLeads (run_decode data) 1 = []
      exact List.eq_nil_of_length_eq_zero (by omega)

/-- Witness for C5 at a concrete single-packet input. -/
theorem derived_leads_formulas_witness :
    ∃ m : LeadMap, decode (encodePacket mixedPacket) = some m ∧ m.leadI ≠ [] ∧
      m.leadII ≠ [] ∧
      m.leadIII = some (List.zipWith (fun a b => a - b)
        (truncatedLeads (run_decode (encodePacket mixedPacket)) 1)
        (truncatedLeads (run_decode (encodePacket mixedPacket)) 0)) := by
  have hguard : ¬ ∀ ch : Fin 8, run_decode (encodePacket mixedPacket) ch = [] := by
    decide
  have hm : decode (encodePacket mixedPacket) =
      some (buildLeads (run_decode (encodePacket mixedPacket))) := by
    unfold decode
    rw [if_neg hguard]
  have hcount : (acceptedPayloads (encodePacket mixedPacket) 0).length = 1 := by
    decide
  have hI : (buildLeads (run_decode (encodePacket mixedPacket))).leadI ≠ [] := by
    have hlen : (buildLeads (run_decode (encodePacket mixedPacket))).leadI.length
        = 5 := by
      rw [buildLeads_leadI, truncatedLeads_run, channelsQ_length, run_decode_length,
        hcount]
    intro h
    rw [h] at hlen
    simp at hlen
  have hII : (buildLeads (run_decode (encodePacket mixedPacket))).leadII ≠ [] := by
    have hlen : (buildLeads (run_decode (encodePacket mixedPacket))).leadII.length
        = 5 := by
      rw [buildLeads_leadII, truncatedLeads_run, channelsQ_length, run_decode_length,
        hcount]
    intro h
    rw [h] at hlen
    simp at hlen
  exact ⟨_, hm, hI, hII,
    (derived_leads_formulas (encodePacket mixedPacket) _ hm hI hII).2.2.2.2.2.2.2.2.1⟩

/-- C6 as stated is false: on input with an empty limb channel, `decode`
raises rather than returning empty derived leads — the empty input has
empty limb channels and `decode` raises (`none`). -/
theorem empty_limb_counterexample :
    run_decode [] 0 = [] ∧ run_decode [] 1 = [] ∧ decode [] = none := by
  decide

/-- C6 amended: if either limb channel is empty after decoding then every
channel is empty (all channels always have equal length) and `decode`
raises its no-valid-data error instead of returning a mapping. -/
theorem empty_limb_raises (data : List Nat)
    (h : run_decode data 0 = [] ∨ run_decode data 1 = []) :
    decode data = none := by
  have hcount : (acceptedPayloads data 0).length = 0 := by
    rcases h with h | h
    · have hl := run_decode_length data 0
      rw [h] at hl
      simpa using hl.symm
    · have hl := run_decode_length data 1
      rw [h] at hl
      simpa using hl.symm
  rw [decode_none_iff_empty]
  intro ch
  have hl := run_decode_length data ch
  rw [hcount] at hl
  exact List.eq_nil_of_length_eq_zero (by omega)

/-- Witness for the amended C6 at the empty input. -/
theorem empty_limb_raises_witness :
    (run_decode [] 0 = [] ∨ run_decode [] 1 = []) ∧ decode [] = none :=
  ⟨Or.inl (by decide), empty_limb_raises [] (Or.inl (by decide))⟩

/-- C10. Every accepted payload appends exactly 5 samples to each of the
8 channels, so all raw channel lengths are equal (`5 ×` the number of
accepted payloads); consequently the minimum-length truncation discards
nothing — a successful decode returns the eight channels untruncated —
and every derived lead present has the same length as lead I. -/
theorem equal_channel_lengths (data : List Nat) :
    (∀ ch : Fin 8,
      (run_decode data ch).length = 5 * (acceptedPayloads data 0).length) ∧
    (∀ m : LeadMap, decode data = some m →
      (m.leadI = channelsQ (run_decode data) 0 ∧
       m.leadII = channelsQ (run_decode data) 1 ∧
       m.v1 = channelsQ (run_decode data) 2 ∧
       m.v2 = channelsQ (run_decode data) 3 ∧
       m.v3 = channelsQ (run_decode data) 4 ∧
       m.v4 = channelsQ (run_decode data) 5 ∧
       m.v5 = channelsQ (run_decode data) 6 ∧
       m.v6 = channelsQ (run_decode data) 7) ∧
      ∀ l : List ℚ,
        (m.leadIII = some l ∨ m.aVR = some l ∨ m.aVL = some l ∨ m.aVF = some l) →
        l.length = m.leadI.length) := by
  refine ⟨run_decode_length data, fun m hm => ?_⟩
  have hb := decode_some_build data m hm
  have htr := truncatedLeads_run data
  have hlen : ∀ ch : Fin 8, (truncatedLeads (run_decode data) ch).length =
      5 * (acceptedPayloads data 0).length := by
    intro ch
    rw [htr ch, channelsQ_length, run_decode_length]
  unfold buildLeads at hb
  by_cases hc : 0 < (truncatedLeads (run_decode data) 0).length ∧
      0 < (truncatedLeads (run_decode data) 1).length
  · rw [if_pos hc] at hb
    subst hb
    refine ⟨⟨htr 0, htr 1, htr 2, htr 3, htr 4, htr 5, htr 6, htr 7⟩, ?_⟩
    intro l hl
    have hzip : ∀ (f : ℚ → ℚ → ℚ) (a b : Fin 8),
        (List.zipWith f (truncatedLeads (run_decode data) a)
          (truncatedLeads (run_decode data) b)).length =
          5 * (acceptedPayloads data 0).length := by
      intro f a b
      rw [List.length_zipWith, hlen a, hlen b, min_self]
    rcases hl with hl | hl | hl | hl <;>
      (cases Option.some.inj hl; rw [hzip, hlen 0])
  · rw [if_neg hc] at hb
    subst hb
    refine ⟨⟨htr 0, htr 1, htr 2, htr 3, htr 4, htr 5, htr 6, htr 7⟩, ?_⟩
    intro l hl
    rcases hl with hl | hl | hl | hl <;> exact Option.noConfusion hl

/-- Witness for C10's conditional part at a concrete input. -/
theorem equal_channel_lengths_witness :
    ∃ m : LeadMap, decode (encodePacket mixedPacket) = some m ∧
      m.leadI = channelsQ (run_decode (encodePacket mixedPacket)) 0 := by
  have hguard : ¬ ∀ ch : Fin 8, run_decode (encodePacket mixedPacket) ch = [] := by
    decide
  have hm : decode (encodePacket mixedPacket) =
      some (buildLeads (run_decode (encodePacket mixedPacket))) := by
    unfold decode
    rw [if_neg hguard]
  exact ⟨_, hm, ((equal_channel_lengths (encodePacket mixedPacket)).2 _ hm).1.1⟩

/-- Unfolding the spec recurrence below the warm-up boundary. -/
theorem morphSpecOut_lt7 (xs : List Int) (n : Nat) (h : n < 7) :
    morphSpecOut xs n = xs.getD n 0 := by
  cases n with
  | zero => rfl
  | succ m => simp only [morphSpecOut, if_pos h]

/-- Unfolding the spec recurrence from the 8th sample onward. -/
theorem morphSpecOut_ge7 (xs : List Int) (n : Nat) (h : 7 ≤ n) :
    morphSpecOut xs n =
      pyIntBlend (xs.getD n 0 - medianOfLast8 xs n)
        (if n = 7 then 0 else morphSpecOut xs (n - 1)) := by
  cases n with
  | zero => omega
  | succ m =>
    simp only [morphSpecOut, if_neg (by omega : ¬ m + 1 < 7), Nat.add_sub_cancel]

/-- The spec recurrence at index `n` only depends on the first `n + 1`
inputs. -/
theorem morphSpecOut_stable (A B : List Int) :
    ∀ n, n < A.length → morphSpecOut A n = morphSpecOut (A ++ B) n := by
  intro n
  induction n using Nat.strong_induction_on with
  | _ n ih =>
    intro hn
    have hget : A.getD n 0 = (A ++ B).getD n 0 := (List.getD_append A B 0 n hn).symm
    have hmed : medianOfLast8 A n = medianOfLast8 (A ++ B) n := by
      unfold medianOfLast8
      rw [List.take_append_of_le_length (by omega : n + 1 ≤ A.length)]
    by_cases h7 : n < 7
    · rw [morphSpecOut_lt7 A n h7, morphSpecOut_lt7 (A ++ B) n h7, hget]
    · rw [morphSpecOut_ge7 A n (by omega), morphSpecOut_ge7 (A ++ B) n (by omega),
        hget, hmed]
      by_cases h8 : n = 7
      · rw [if_pos h8, if_pos h8]
      · rw [if_neg h8, if_neg h8, ih (n - 1) (by omega) (by omega)]

/-- One step of the morphology filter from the canonical state. -/
theorem morph_step (p : List Int) (x : Int) :
    compute_hpf (morphStateAfter p) x =
      (morphStateAfter (p ++ [x]), morphSpecOut (p ++ [x]) p.length) := by
  have hgetx : (p ++ [x]).getD p.length 0 = x := by
    rw [List.getD_append_right p [x] 0 p.length (le_refl _), Nat.sub_self]
    rfl
  unfold compute_hpf morphStateAfter BufferState.add BufferState.fill
  dsimp only
  rcases (by omega : p.length < 7 ∨ p.length = 7 ∨ 8 ≤ p.length) with h7 | h7 | h7
  · -- warm-up: this is at most the 7th sample
    simp only [show p.length - 8 = 0 from by omega, List.drop_zero,
      List.length_append, List.length_singleton,
      if_neg (show ¬ 8 < p.length + 1 from by omega),
      if_neg (show ¬ p.length + 1 = 8 from by omega),
      if_pos (show p.length < 8 from by omega),
      if_pos (show p.length + 1 < 8 from by omega),
      decide_eq_false (show ¬ 8 ≤ p.length from by omega),
      decide_eq_false (show ¬ 8 ≤ p.length + 1 from by omega),
      show p.length + 1 - 8 = 0 from by omega,
      beq_eq_false_iff_ne.mpr (show p.length + 1 ≠ 8 from by omega),
      Bool.or_self, Bool.not_false,
      morphSpecOut_lt7 (p ++ [x]) p.length h7, hgetx, reduceIte]
  · -- exactly the 8th sample: the buffer fills now, previous output is 0
    simp only [show p.length - 8 = 0 from by omega, List.drop_zero,
      List.length_append, List.length_singleton,
      if_neg (show ¬ 8 < p.length + 1 from by omega),
      if_pos (show p.length + 1 = 8 from by omega),
      if_pos (show p.length < 8 from by omega),
      if_neg (show ¬ p.length + 1 < 8 from by omega),
      decide_eq_true (show 8 ≤ p.length + 1 from by omega),
      Bool.true_or, Bool.not_true, if_neg (show ¬ false = true from Bool.false_ne_true),
      morphSpecOut_ge7 (p ++ [x]) p.length (by omega),
      if_pos (show p.length = 7 from h7), hgetx, Nat.add_sub_cancel,
      medianOfLast8,
      show (p ++ [x]).take (p.length + 1) = p ++ [x] from by
        rw [show p.length + 1 = (p ++ [x]).length from by simp]
        exact List.take_length _,
      show p.length + 1 - 8 = 0 from by omega, List.drop_zero, reduceIte]
  · -- steady state: at least the 9th sample
    have hbuf : (p.drop (p.length - 8) ++ [x]).drop 1 =
        (p ++ [x]).drop (p.length + 1 - 8) := by
      rw [← List.drop_append_of_le_length (show p.length - 8 ≤ p.length from by omega),
        List.drop_drop]
      congr 1
      omega
    simp only [List.length_append, List.length_singleton,
      show (p.drop (p.length - 8)).length = 8 from by rw [List.length_drop]; omega,
      if_pos (show 8 < 8 + 1 from by omega),
      show (8 : Nat) + 1 - 8 = 1 from rfl, hbuf,
      List.length_drop,
      show p.length + 1 - (p.length + 1 - 8) = 8 from by omega,
      if_pos (show (8 : Nat) = 8 from rfl),
      if_neg (show ¬ p.length < 8 from by omega),
      if_neg (show ¬ p.length + 1 < 8 from by omega),
      decide_eq_true (show 8 ≤ p.length + 1 from by omega),
      Bool.true_or, Bool.not_true, if_neg (show ¬ false = true from Bool.false_ne_true),
      morphSpecOut_ge7 (p ++ [x]) p.length (by omega),
      if_neg (show ¬ p.length = 7 from by omega), hgetx, Nat.add_sub_cancel,
      morphSpecOut_stable p [x] (p.length - 1) (by omega),
      medianOfLast8,
      show (p ++ [x]).take (p.length + 1) = p ++ [x] from by
        rw [show p.length + 1 = (p ++ [x]).length from by simp]
        exact List.take_length _,
      reduceIte]

theorem statefulRun_morph (q : List Int) : ∀ p : List Int,
    statefulRun compute_hpf (morphStateAfter p) q =
      (List.range' p.length q.length).map (fun n => morphSpecOut (p ++ q) n) := by
  induction q with
  | nil => intro p; rfl
  | cons x xs ih =>
    intro p
    have hassoc : (p ++ [x]) ++ xs = p ++ (x :: xs) := by
      rw [List.append_assoc]
      rfl
    show (compute_hpf (morphStateAfter p) x).2 ::
        statefulRun compute_hpf (compute_hpf (morphStateAfter p) x).1 xs =
      (List.range' p.length (x :: xs).length).map (fun n => morphSpecOut (p ++ x :: xs) n)
    rw [morph_step]
    dsimp only
    rw [ih (p ++ [x]), List.length_append, List.length_singleton, hassoc,
      List.length_cons, List.range'_succ, List.map_cons]
    congr 1
    rw [morphSpecOut_stable (p ++ [x]) xs p.length (by simp), hassoc]

/-- C7 counterexample: on eight samples of value 10 the code's outputs differ
from the claim's recurrence, which updates `previousOutput` to the returned
value at every step. At index 7 the claim predicts
`int(0.7*(10 - 10) + 0.3*10) = 3` (previous output = the echoed input 10),
but `compute_hpf` outputs 0: during warm-up the filter returns the input
without updating `previous_output`, so the first subtraction step still
sees the initial value 0. -/
theorem morphology_counterexample :
    statefulRun compute_hpf morphInit (List.replicate 8 10) ≠
      (List.range 8).map (morphStatedOut (List.replicate 8 10)) := by
  decide

/-- C7 (amended): for every input sequence fed sample-by-sample to a fresh
`MorphologyFilter`, each of the first 7 outputs equals the corresponding
input unchanged, and from the 8th sample onward each output equals
`int(0.7*(x - median(last 8 inputs)) + 0.3*prev)`, where the median is the
upper middle element `sorted[len(sorted)//2]` of the ascending sort and
`prev` is 0 for the 8th sample (the initial `previous_output`, which the
warm-up path never updates) and the previously returned value thereafter.
`morphSpecOut` is exactly this recurrence. -/
theorem morphology_exact (xs : List Int) :
    statefulRun compute_hpf morphInit xs =
      (List.range xs.length).map (morphSpecOut xs) := by
  have h := statefulRun_morph xs []
  rw [show morphStateAfter [] = morphInit from rfl, List.nil_append] at h
  rw [h, List.range_eq_range']
  rfl

/-- C8: for every configuration, state and sample, the code's per-sample
pipeline `filterStep` equals the spec's staged pipeline `specPipelineStep`
(baseline correction only if enabled, then notch filtering — single filter
or chained multi-frequency filters —, then exactly one of morphology
spike-removal or the IIR high-pass, then smoothing only if enabled); and
the two exclusive stages never both act: with spike removal on, the
high-pass state is left untouched, otherwise the morphology state is. -/
theorem pipeline_order (cfg : GloveConfig) (st : GloveState) (x : ℚ) :
    filterStep cfg st x = specPipelineStep cfg st x ∧
      (if cfg.spike_removal then (filterStep cfg st x).1.hp = st.hp
       else (filterStep cfg st x).1.morph = st.morph) := by
  unfold filterStep specPipelineStep
  rcases hb : cfg.enable_baseline_correction with _ | _ <;>
    rcases hbl : st.baseline with _ | bst <;>
    rcases hsp : cfg.spike_removal with _ | _ <;>
    rcases hsm : cfg.enable_smoothing with _ | _ <;>
    rcases hsl : st.smoothing with _ | sst <;>
    simp

/-- Generic causality of a stateful loop: outputs up to index `n` depend
only on inputs up to index `n`. -/
theorem statefulRun_take {sg a b : Type} (step : sg → a → sg × b) :
    ∀ (n : Nat) (s : sg) (xs ys : List a), xs.take n = ys.take n →
      (statefulRun step s xs).take n = (statefulRun step s ys).take n := by
  intro n
  induction n with
  | zero => intro s xs ys _; simp
  | succ n ih =>
    intro s xs ys h
    match xs, ys with
    | [], [] => rfl
    | [], y :: ys =>
      simp [List.take_succ_cons] at h
    | x :: xs, [] =>
      simp [List.take_succ_cons] at h
    | x :: xs, y :: ys =>
      simp only [List.take_succ_cons, List.cons.injEq] at h
      obtain ⟨rfl, hrest⟩ := h
      show ((step s x).2 :: statefulRun step (step s x).1 xs).take (n + 1) =
        ((step s x).2 :: statefulRun step (step s x).1 ys).take (n + 1)
      rw [List.take_succ_cons, List.take_succ_cons, ih _ xs ys hrest]

/-- C9: every filter stage is causal. For every sample index `n` and every
two input sequences agreeing on their first `n+1` samples, freshly
initialized notch, multi-notch, morphology, high-pass, baseline and
smoothing filters produce identical outputs at all indices up to `n`. -/
theorem filter_stages_causal (n : Nat) (freq : Nat) (freqs : List Nat)
    (t : HPFilterType) (cutoff : ℚ) (fs w : Nat)
    (xs ys : List ℚ) (xsI ysI : List Int)
    (h : xs.take (n + 1) = ys.take (n + 1))
    (hI : xsI.take (n + 1) = ysI.take (n + 1)) :
    (notchRun freq xs).take (n + 1) = (notchRun freq ys).take (n + 1) ∧
    (multiNotchRun freqs xs).take (n + 1) = (multiNotchRun freqs ys).take (n + 1) ∧
    (morphRun xsI).take (n + 1) = (morphRun ysI).take (n + 1) ∧
    (hpRun t xs).take (n + 1) = (hpRun t ys).take (n + 1) ∧
    (baselineRun cutoff fs xs).take (n + 1) = (baselineRun cutoff fs ys).take (n + 1) ∧
    (smoothRun w xs).take (n + 1) = (smoothRun w ys).take (n + 1) :=
  ⟨statefulRun_take _ _ _ _ _ h, statefulRun_take _ _ _ _ _ h,
   statefulRun_take _ _ _ _ _ hI, statefulRun_take _ _ _ _ _ h,
   statefulRun_take _ _ _ _ _ h, statefulRun_take _ _ _ _ _ h⟩

theorem filter_stages_causal_witness :
    ([(1 : ℚ), 2].take 1 = [(1 : ℚ), 3].take 1) ∧
      ([(5 : Int), 6].take 1 = [(5 : Int), 7].take 1) ∧
      ((notchRun 50 [(1 : ℚ), 2]).take 1 = (notchRun 50 [(1 : ℚ), 3]).take 1 ∧
       (multiNotchRun [50, 60] [(1 : ℚ), 2]).take 1 =
         (multiNotchRun [50, 60] [(1 : ℚ), 3]).take 1 ∧
       (morphRun [(5 : Int), 6]).take 1 = (morphRun [(5 : Int), 7]).take 1 ∧
       (hpRun HPFilterType.HP05 [(1 : ℚ), 2]).take 1 =
         (hpRun HPFilterType.HP05 [(1 : ℚ), 3]).take 1 ∧
       (baselineRun (1 / 2) 500 [(1 : ℚ), 2]).take 1 =
         (baselineRun (1 / 2) 500 [(1 : ℚ), 3]).take 1 ∧
       (smoothRun 3 [(1 : ℚ), 2]).take 1 = (smoothRun 3 [(1 : ℚ), 3]).take 1) :=
  ⟨rfl, rfl,
   filter_stages_causal 0 50 [50, 60] HPFilterType.HP05 (1 / 2) 500 3
     [(1 : ℚ), 2] [(1 : ℚ), 3] [(5 : Int), 6] [(5 : Int), 7] rfl rfl⟩

end ECG
